import Mathlib

/-!
# Ray tracing intersection core: sphere, triangle mesh, face orientation

A shallow embedding of `ray.h`, `rayhit.h`, `sphere.h` and `mesh.h`.

Conventions of the embedding.

* The C++ `double` is idealised as an arbitrary linear ordered field `K`
  (exact arithmetic: no rounding, no infinities, no NaN).  Every definition is
  computable, so it can be evaluated at `K = ℚ`.
* `std::sqrt` is a library function; it is taken as a parameter `sqrt : K → K`
  and theorems assume it is exact at the one discriminant they use.
* A C++ method `bool hit(..., hit_record& rec)` becomes a function that takes
  the incoming record and returns the flag together with the outgoing record.
* Division by zero is outside the idealisation (IEEE yields an infinity or a
  NaN where the field yields `0`); theorems about paths of `sphere::hit` that
  divide assume the divisor is non-zero.  The one exception is the slab test
  `intersect_bb`, whose behaviour on a zero direction component the design
  relies on: there the embedding follows the IEEE outcome (see
  `mesh.intersect_bb_loop`).
-/

namespace Rendering

/-! ## vector.h (utility value type) -/

/-- Modelled from the spec: `vector.h` is not among the sources; the spec
describes it as a utility value type with standard Euclidean semantics
(add, scale, dot, cross).  Three components `e[0]`, `e[1]`, `e[2]`. -/
@[ext]
structure vec3 (K : Type) where
  x : K
  y : K
  z : K
deriving DecidableEq, Repr

namespace vec3

variable {K : Type} [LinearOrderedField K]

/-- Modelled from the spec: the zero vector, value of a default constructed `vec3`. -/
def zero : vec3 K := ⟨0, 0, 0⟩

/-- Modelled from the spec: `u + v`, componentwise. -/
def add (u v : vec3 K) : vec3 K := ⟨u.x + v.x, u.y + v.y, u.z + v.z⟩

/-- Modelled from the spec: `u - v`, componentwise. -/
def sub (u v : vec3 K) : vec3 K := ⟨u.x - v.x, u.y - v.y, u.z - v.z⟩

/-- Modelled from the spec: unary minus `-v`. -/
def neg (v : vec3 K) : vec3 K := ⟨-v.x, -v.y, -v.z⟩

/-- Modelled from the spec: `t * v`, scaling by a scalar. -/
def smul (t : K) (v : vec3 K) : vec3 K := ⟨t * v.x, t * v.y, t * v.z⟩

/-- Modelled from the spec: `v / t`, division by a scalar. -/
def sdiv (v : vec3 K) (t : K) : vec3 K := ⟨v.x / t, v.y / t, v.z / t⟩

/-- Modelled from the spec: `u * v`, the componentwise product used for colours. -/
def mul (u v : vec3 K) : vec3 K := ⟨u.x * v.x, u.y * v.y, u.z * v.z⟩

/-- Modelled from the spec: `v[axis]` for `axis` in `0, 1, 2`. -/
def get (v : vec3 K) (axis : Nat) : K :=
  match axis with
  | 0 => v.x
  | 1 => v.y
  | _ => v.z

/-- Modelled from the spec: `v.length_squared()`. -/
def length_squared (v : vec3 K) : K := v.x * v.x + v.y * v.y + v.z * v.z

instance : Add (vec3 K) := ⟨add⟩
instance : Sub (vec3 K) := ⟨sub⟩
instance : Neg (vec3 K) := ⟨neg⟩
instance : HMul K (vec3 K) (vec3 K) := ⟨smul⟩
instance : HDiv (vec3 K) K (vec3 K) := ⟨sdiv⟩

end vec3

variable {K : Type} [LinearOrderedField K]

/-- Modelled from the spec: `dot(u, v)`, the Euclidean inner product. -/
def dot (u v : vec3 K) : K := u.x * v.x + u.y * v.y + u.z * v.z

/-- Modelled from the spec: `cross(u, v)`, the right-handed cross product. -/
def cross (u v : vec3 K) : vec3 K :=
  ⟨u.y * v.z - u.z * v.y, u.z * v.x - u.x * v.z, u.x * v.y - u.y * v.x⟩

/-! ## material.h -/

/-- The `Material` struct: three colour triples and a shininess exponent. -/
structure Material (K : Type) where
  ambient : vec3 K
  diffuse : vec3 K
  specular : vec3 K
  shininess : K
deriving DecidableEq, Repr

/-! ## ray.h -/

/-- The `ray` class: origin and direction. -/
structure ray (K : Type) where
  orig : vec3 K
  dir : vec3 K
deriving DecidableEq, Repr

/-- The accessor `ray::origin()`. -/
def ray.origin (r : ray K) : vec3 K := r.orig

/-- The accessor `ray::direction()`. -/
def ray.direction (r : ray K) : vec3 K := r.dir

/-- The method `ray::at(t)`: `orig + t*dir`. -/
def ray.«at» (r : ray K) (t : K) : vec3 K := r.orig + t * r.dir

/-! ## rayhit.h -/

/-- The `hit_record` class. -/
structure hit_record (K : Type) where
  p : vec3 K
  normal : vec3 K
  mat : Material K
  t : K
  front_face : Bool
deriving DecidableEq, Repr

/-- The method `hit_record::set_face_normal(r, outward_normal)`. -/
def hit_record.set_face_normal (rec : hit_record K) (r : ray K) (outward_normal : vec3 K) :
    hit_record K :=
  let front_face : Bool := decide (dot r.direction outward_normal < 0)
  { rec with
    front_face := front_face
    normal := if front_face then outward_normal else -outward_normal }

/-! ## sphere.h -/

/-- The `sphere` class: centre, radius and material. -/
structure sphere (K : Type) where
  mat : Material K
  center : vec3 K
  radius : K
deriving DecidableEq, Repr

/-- The constructor `sphere(center, radius, material)`: the radius is stored as
`fmax(0, radius)`. -/
def sphere.new (center : vec3 K) (radius : K) (material : Material K) : sphere K :=
  { center := center, radius := max 0 radius, mat := material }

/-- The tail of `sphere::hit` after a root has been accepted: fill the record.
The quotient by `radius` is the field quotient, which agrees with the source
when `radius` is not zero (at radius zero the source produces NaN); theorems
that use the normal of a sphere record assume `0 < radius`. -/
def sphere.fill (s : sphere K) (r : ray K) (root : K) (rec : hit_record K) : hit_record K :=
  let rec1 := { rec with t := root }
  let rec2 := { rec1 with p := r.«at» rec1.t }
  let outward_normal : vec3 K := (rec2.p - s.center) / s.radius
  let rec3 := rec2.set_face_normal r outward_normal
  { rec3 with mat := s.mat }

/-- The method `sphere::hit(r, ray_tmin, ray_tmax, rec)`.  The quotients by
`a` are field quotients, which agree with the source when the direction is not
the zero vector (for a zero direction the source computes NaN roots); theorems
that use the roots of a sphere assume a non-zero direction. -/
def sphere.hit (sqrt : K → K) (s : sphere K) (r : ray K) (ray_tmin ray_tmax : K)
    (rec : hit_record K) : Bool × hit_record K :=
  let oc := s.center - r.origin
  let a := r.direction.length_squared
  let h := dot r.direction oc
  let c := oc.length_squared - s.radius * s.radius
  let discriminant := h * h - a * c
  if discriminant < 0 then (false, rec)
  else
    let sqrtd := sqrt discriminant
    let root := (h - sqrtd) / a
    if root ≤ ray_tmin ∨ ray_tmax ≤ root then
      let root := (h + sqrtd) / a
      if root ≤ ray_tmin ∨ ray_tmax ≤ root then (false, rec)
      else (true, s.fill r root rec)
    else (true, s.fill r root rec)

/-! ## mesh.h -/

/-- The `Triangle` struct: three vertices and a stored normal. -/
structure Triangle (K : Type) where
  v0 : vec3 K
  v1 : vec3 K
  v2 : vec3 K
  normal : vec3 K
deriving DecidableEq, Repr

/-- The `mesh` class: triangles, material, bounding box corners and the flag
telling whether the box is valid. -/
structure mesh (K : Type) where
  triangles : List (Triangle K)
  mat : Material K
  bb_min : vec3 K
  bb_max : vec3 K
  has_bb : Bool
deriving DecidableEq, Repr

/-- The constructor `mesh(m)`: no triangles, `has_bb = false`.  The two corners
are default constructed. -/
def mesh.new (m : Material K) : mesh K :=
  { triangles := [], mat := m, bb_min := vec3.zero, bb_max := vec3.zero, has_bb := false }

/-- The constant `epsilon = 0.0001` of `intersect_triangle`. -/
def epsilon : K := 1 / 10000

/-- The local `det` of `intersect_triangle`: `dot(edge1, cross(direction, edge2))`. -/
def tri_det (direction : vec3 K) (tri : Triangle K) : K :=
  dot (tri.v1 - tri.v0) (cross direction (tri.v2 - tri.v0))

/-- The local `a` of `intersect_triangle`: `dot(T, P) * inv_det`. -/
def tri_a (origin direction : vec3 K) (tri : Triangle K) : K :=
  dot (origin - tri.v0) (cross direction (tri.v2 - tri.v0)) * (1 / tri_det direction tri)

/-- The local `b` of `intersect_triangle`: `dot(direction, q) * inv_det`. -/
def tri_b (origin direction : vec3 K) (tri : Triangle K) : K :=
  dot direction (cross (origin - tri.v0) (tri.v1 - tri.v0)) * (1 / tri_det direction tri)

/-- The local `p` of `intersect_triangle`: `dot(edge2, q) * inv_det`. -/
def tri_p (origin direction : vec3 K) (tri : Triangle K) : K :=
  dot (tri.v2 - tri.v0) (cross (origin - tri.v0) (tri.v1 - tri.v0)) * (1 / tri_det direction tri)

/-- The method `mesh::intersect_triangle(origin, direction, tri)` (Moller-Trumbore);
the value `-1` is the no-hit sentinel. -/
def intersect_triangle (origin direction : vec3 K) (tri : Triangle K) : K :=
  let edge1 := tri.v1 - tri.v0
  let edge2 := tri.v2 - tri.v0
  let P := cross direction edge2
  let det := dot edge1 P
  if det > -epsilon ∧ det < epsilon then -1
  else
    let inv_det := 1 / det
    let T := origin - tri.v0
    let a := dot T P * inv_det
    if a < 0 ∨ a > 1 then -1
    else
      let q := cross T edge1
      let b := dot direction q * inv_det
      if b < 0 ∨ a + b > 1 then -1
      else
        let p := dot edge2 q * inv_det
        if p > epsilon then p else -1

/-- The loop of `mesh::intersect_bb` over the remaining axes, carrying the
running `t_min` and `t_max`.

The source has one code path, `adinv = 1.0 / direction[axis]`, with no test for
a zero component.  For a non-zero component the second branch below is that
path as written.  For a zero component IEEE arithmetic gives `adinv = +inf`
(or `-inf` for a negative zero), so `t0 = (bb_min - o) * adinv` and
`t1 = (bb_max - o) * adinv` are each `+inf`, `-inf` or NaN (when the factor is
zero), and the comparisons of lines 49 to 56 come out as follows, for either
sign of the zero: `t_min` becomes `+inf` exactly when the origin is beyond the
slab on one side and `t_max` becomes `-inf` exactly when it is beyond on the
other, in both cases `t_max <= t_min` holds and the function returns false;
otherwise (origin between the two planes, NaN comparisons being false on a
plane) both bounds are left unchanged and only `t_max <= t_min` is tested.
The first branch states that outcome, since a field has no infinities. -/
def mesh.intersect_bb_loop (m : mesh K) (r : ray K) : List Nat → K → K → Bool
  | [], _, _ => true
  | axis :: rest, t_min, t_max =>
    if r.direction.get axis = 0 then
      if m.bb_min.get axis - r.origin.get axis > 0 ∨
          m.bb_max.get axis - r.origin.get axis < 0 then false
      else if t_max ≤ t_min then false
      else mesh.intersect_bb_loop m r rest t_min t_max
    else
      let adinv := 1 / r.direction.get axis
      let t0 := (m.bb_min.get axis - r.origin.get axis) * adinv
      let t1 := (m.bb_max.get axis - r.origin.get axis) * adinv
      let t0s := if adinv < 0 then t1 else t0
      let t1s := if adinv < 0 then t0 else t1
      let t_min := if t0s > t_min then t0s else t_min
      let t_max := if t1s < t_max then t1s else t_max
      if t_max ≤ t_min then false
      else mesh.intersect_bb_loop m r rest t_min t_max

/-- The method `mesh::intersect_bb(r, t_min, t_max)`: axes `0, 1, 2` in order. -/
def mesh.intersect_bb (m : mesh K) (r : ray K) (t_min t_max : K) : Bool :=
  m.intersect_bb_loop r [0, 1, 2] t_min t_max

/-- The three locals the triangle loop of `mesh::hit` updates. -/
structure scan_state (K : Type) where
  closest_t : K
  hit_anything : Bool
  hit_normal : vec3 K
deriving DecidableEq, Repr

/-- One iteration of the triangle loop of `mesh::hit`. -/
def mesh.scan_step (r : ray K) (ray_tmin : K) (st : scan_state K) (tri : Triangle K) :
    scan_state K :=
  let i := intersect_triangle r.origin r.direction tri
  if i > ray_tmin ∧ i < st.closest_t then
    { closest_t := i, hit_anything := true, hit_normal := tri.normal }
  else st

/-- The triangle loop of `mesh::hit`, from `closest_t = ray_tmax`,
`hit_anything = false` and a default constructed `hit_normal`. -/
def mesh.scan (m : mesh K) (r : ray K) (ray_tmin ray_tmax : K) : scan_state K :=
  m.triangles.foldl (mesh.scan_step r ray_tmin)
    { closest_t := ray_tmax, hit_anything := false, hit_normal := vec3.zero }

/-- The method `mesh::hit(r, ray_tmin, ray_tmax, rec)`. -/
def mesh.hit (m : mesh K) (r : ray K) (ray_tmin ray_tmax : K) (rec : hit_record K) :
    Bool × hit_record K :=
  if m.has_bb = true ∧ m.intersect_bb r ray_tmin ray_tmax = false then (false, rec)
  else
    let st := m.scan r ray_tmin ray_tmax
    if st.hit_anything = true then
      let rec1 := { rec with t := st.closest_t }
      let rec2 := { rec1 with p := r.«at» st.closest_t }
      let rec3 := { rec2 with mat := m.mat }
      (true, rec3.set_face_normal r st.hit_normal)
    else (false, rec)

/-- Componentwise minimum of two vectors, one step of the `bb_min` fold. -/
def vmin (u v : vec3 K) : vec3 K := ⟨min u.x v.x, min u.y v.y, min u.z v.z⟩

/-- Componentwise maximum of two vectors, one step of the `bb_max` fold. -/
def vmax (u v : vec3 K) : vec3 K := ⟨max u.x v.x, max u.y v.y, max u.z v.z⟩

/-- The vertices visited by the two nested loops of `bounding_box`, in order. -/
def mesh.verts (m : mesh K) : List (vec3 K) :=
  m.triangles.flatMap (fun tri => [tri.v0, tri.v1, tri.v2])

/-- The method `mesh::bounding_box()`.  The source seeds the two folds with
`+inf` and `-inf`, the neutral elements of `min` and `max`; a field has no
infinities, so the folds are seeded with the first vertex instead, which is
also the first vertex folded in and gives the same corners. -/
def mesh.bounding_box (m : mesh K) : mesh K :=
  match m.triangles with
  | [] => { m with has_bb := false }
  | tri0 :: _ =>
    { m with
      bb_min := m.verts.foldl vmin tri0.v0
      bb_max := m.verts.foldl vmax tri0.v0
      has_bb := true }

/-! ## Quantities named by the sphere claims -/

/-- The coefficient `a = |D|^2` of `sphere::hit`. -/
def sphere.qa (r : ray K) : K := r.direction.length_squared

/-- The coefficient `h = D . (C - O)` of `sphere::hit`. -/
def sphere.qh (s : sphere K) (r : ray K) : K := dot r.direction (s.center - r.origin)

/-- The coefficient `c = |C - O|^2 - r^2` of `sphere::hit`. -/
def sphere.qc (s : sphere K) (r : ray K) : K :=
  (s.center - r.origin).length_squared - s.radius * s.radius

/-- The local `discriminant = h*h - a*c` of `sphere::hit`. -/
def sphere.discriminant (s : sphere K) (r : ray K) : K :=
  s.qh r * s.qh r - sphere.qa r * s.qc r

/-- The smaller root `(h - sqrtd) / a`. -/
def sphere.root_lo (sqrt : K → K) (s : sphere K) (r : ray K) : K :=
  (s.qh r - sqrt (s.discriminant r)) / sphere.qa r

/-- The larger root `(h + sqrtd) / a`. -/
def sphere.root_hi (sqrt : K → K) (s : sphere K) (r : ray K) : K :=
  (s.qh r + sqrt (s.discriminant r)) / sphere.qa r

/-- The point `r.at(t)` lies on the sphere: `|O + tD - C|^2 = r^2`. -/
def sphere.on_surface (s : sphere K) (r : ray K) (t : K) : Prop :=
  (r.«at» t - s.center).length_squared = s.radius * s.radius

/-- The hypothesis on the square root: exact at the discriminant of this
sphere and ray whenever that discriminant is not negative. -/
def sphere.sqrt_exact (sqrt : K → K) (s : sphere K) (r : ray K) : Prop :=
  0 ≤ s.discriminant r →
    0 ≤ sqrt (s.discriminant r) ∧
      sqrt (s.discriminant r) * sqrt (s.discriminant r) = s.discriminant r

/-! ## Concrete inputs over the rationals -/

/-- A material with all entries zero, for concrete inputs. -/
def mat0 : Material ℚ := ⟨⟨0, 0, 0⟩, ⟨0, 0, 0⟩, ⟨0, 0, 0⟩, 0⟩

/-- A hit record with all entries zero, the incoming record of concrete calls. -/
def rec0 : hit_record ℚ := ⟨⟨0, 0, 0⟩, ⟨0, 0, 0⟩, mat0, 0, false⟩

/-- The unit sphere at the world origin. -/
def unit_sphere : sphere ℚ := sphere.new ⟨0, 0, 0⟩ 1 mat0

/-- A ray from `(0, 0, 3)` looking down the negative z axis, through the centre
of `unit_sphere`: it meets the sphere at `t = 2` and `t = 4`. -/
def z_ray : ray ℚ := ⟨⟨0, 0, 3⟩, ⟨0, 0, -1⟩⟩

/-- A ray parallel to the z axis through `(1, 0, 0)`: tangent to `unit_sphere`
at `t = 3`, its origin `(1, 0, 3)` strictly outside. -/
def tangent_ray : ray ℚ := ⟨⟨1, 0, 3⟩, ⟨0, 0, -1⟩⟩

/-- A sphere constructed with radius zero at the world origin. -/
def point_sphere : sphere ℚ := sphere.new ⟨0, 0, 0⟩ 0 mat0

/-- A ray from the centre of `unit_sphere` down the negative z axis: origin
strictly inside, roots `-1` and `1`. -/
def inner_ray : ray ℚ := ⟨⟨0, 0, 0⟩, ⟨0, 0, -1⟩⟩

/-- A triangle in the plane `z = 0`, with its stored normal `(0, 0, 1)`. -/
def flat_tri : Triangle ℚ := ⟨⟨0, 0, 0⟩, ⟨1, 0, 0⟩, ⟨0, 1, 0⟩, ⟨0, 0, 1⟩⟩

/-- A mesh as left by the constructor and one `push_back` of `flat_tri`; its
box has not been built. -/
def flat_mesh : mesh ℚ := { mesh.new mat0 with triangles := [flat_tri] }

/-- A ray from `(1/4, 1/4, 1)` with all three direction components non-zero;
it meets `flat_tri` at `t = 1`, at the point `(3/8, 3/8, 0)`. -/
def slant_ray : ray ℚ := ⟨⟨1 / 4, 1 / 4, 1⟩, ⟨1 / 8, 1 / 8, -1⟩⟩

/-- A ray above the plane `z = 0` running parallel to it. -/
def level_ray : ray ℚ := ⟨⟨0, 0, 1⟩, ⟨1, 0, 0⟩⟩

/-- The point `v` lies in the closed axis-aligned box with corners `lo` and
`hi`: `lo <= v <= hi` on each axis. -/
def in_box (lo hi v : vec3 K) : Prop :=
  lo.x ≤ v.x ∧ v.x ≤ hi.x ∧ lo.y ≤ v.y ∧ v.y ≤ hi.y ∧ lo.z ≤ v.z ∧ v.z ≤ hi.z

/-- The vector `v` is one of the three vertices of `tri`. -/
def Triangle.has_vertex (tri : Triangle K) (v : vec3 K) : Prop :=
  v = tri.v0 ∨ v = tri.v1 ∨ v = tri.v2

/-- The centroid `(v0 + v1 + v2) / 3` of a triangle. -/
def Triangle.centroid (tri : Triangle K) : vec3 K := (tri.v0 + tri.v1 + tri.v2) / (3 : K)

/-- The face normal before normalisation, `cross(v1 - v0, v2 - v0)`, as
`load_object` computes it from the winding. -/
def Triangle.face_normal (tri : Triangle K) : vec3 K :=
  cross (tri.v1 - tri.v0) (tri.v2 - tri.v0)

/-- The ray of the centroid test: origin on the line through the centroid
along the face normal, at `centroid + h * N`, and direction `-(lam * N)`.  With
`h` and `lam` of the same sign the direction runs toward the plane; every
point of the normal line and every direction along the normal has this form
when the triangle is not degenerate. -/
def centroid_ray (tri : Triangle K) (h lam : K) : ray K :=
  ⟨tri.centroid + h * tri.face_normal, -(lam * tri.face_normal)⟩

/-- A triangle in the plane `z = 0` with legs of length `1/1000`, stored unit
normal `(0, 0, 1)`. -/
def tiny_tri : Triangle ℚ := ⟨⟨0, 0, 0⟩, ⟨1 / 1000, 0, 0⟩, ⟨0, 1 / 1000, 0⟩, ⟨0, 0, 1⟩⟩

/-- The ray from one unit above the centroid of `tiny_tri` straight down its
unit normal. -/
def tiny_ray : ray ℚ := ⟨⟨1 / 3000, 1 / 3000, 1⟩, ⟨0, 0, -1⟩⟩

/-- The ray from `1/100000` above the centroid of `flat_tri` straight down its
unit normal. -/
def near_ray : ray ℚ := ⟨⟨1 / 3, 1 / 3, 1 / 100000⟩, ⟨0, 0, -1⟩⟩

/-! ## main.cpp (shading block) -/

/-- Modelled from the spec: `v.length()`, the Euclidean norm, through the
square root parameter. -/
def vec3.length (sqrt : K → K) (v : vec3 K) : K := sqrt v.length_squared

/-- Modelled from the spec: `v.normalize()`, the vector divided by its length. -/
def vec3.normalize (sqrt : K → K) (v : vec3 K) : vec3 K := v / vec3.length sqrt v

/-- Modelled from the spec: `v * t`, a colour scaled by a scalar on the right. -/
def vec3.muls (v : vec3 K) (t : K) : vec3 K := ⟨v.x * t, v.y * t, v.z * t⟩

/-- The colour locals of the shading block of `main` once it has run. -/
structure shading (K : Type) where
  ambient_color : vec3 K
  diffuse_color : vec3 K
  specular_color : vec3 K
  sample_color : vec3 K
deriving DecidableEq, Repr

/-- The shading block of `main` (the body of `if (world.hit(r, ...))`).
`world_hit` stands for `world.hit` of the scene (`hittable_list.h` is not among
the sources), `pow` for `std::pow`, `shadow_rec` for the record handed to the
shadow query.  The two assignments nested under `if (!is_in_shadow)` are
written as two conditionals on the same flag. -/
def shade (sqrt : K → K) (pow : K → K → K)
    (world_hit : ray K → K → K → hit_record K → Bool × hit_record K)
    (light_position camera_center : vec3 K) (rec shadow_rec : hit_record K) : shading K :=
  let light_dir := vec3.normalize sqrt (light_position - rec.p)
  let shadow_ray : ray K := ⟨rec.p, light_dir⟩
  let light_distance := vec3.length sqrt (light_position - rec.p)
  let is_in_shadow : Bool := (world_hit shadow_ray (1 / 1000) light_distance shadow_rec).1
  let N := vec3.normalize sqrt rec.normal
  let L := light_dir
  let V := vec3.normalize sqrt (camera_center - rec.p)
  let H := vec3.normalize sqrt (L + V)
  let light_color : vec3 K := ⟨1, 1, 1⟩
  let ambient_color := rec.mat.ambient
  let diffuse_color0 : vec3 K := ⟨0, 0, 0⟩
  let specular_color0 : vec3 K := ⟨0, 0, 0⟩
  let diffuseFactor := max 0 (dot N L)
  let diffuse_color :=
    if is_in_shadow = false then vec3.mul (vec3.muls rec.mat.diffuse diffuseFactor) light_color
    else diffuse_color0
  let specular_color :=
    if is_in_shadow = false ∧ diffuseFactor > 0 then
      vec3.mul (vec3.muls rec.mat.specular (pow (max 0 (dot H N)) rec.mat.shininess))
        light_color
    else specular_color0
  { ambient_color := ambient_color
    diffuse_color := diffuse_color
    specular_color := specular_color
    sample_color := ambient_color + diffuse_color + specular_color }

/-- The preset `Material::Red()`: ambient `(0.1, 0, 0)`, diffuse `(0.8, 0, 0)`,
specular `(1, 1, 1)`, shininess `32`. -/
def red_mat : Material ℚ := ⟨⟨1 / 10, 0, 0⟩, ⟨4 / 5, 0, 0⟩, ⟨1, 1, 1⟩, 32⟩

/-- A hit record at the point `(0, 0, 3)`, the origin of `z_ray`, with the red
material and the normal `(0, 0, -1)` facing the light `far_light`. -/
def lit_rec : hit_record ℚ := ⟨⟨0, 0, 3⟩, ⟨0, 0, -1⟩, red_mat, 1, true⟩

/-- The `world.hit` of a scene without primitives: never a hit. -/
def empty_world (_ : ray ℚ) (_ _ : ℚ) (rec : hit_record ℚ) : Bool × hit_record ℚ :=
  (false, rec)

/-- A light at `(0, 0, -3)`, behind `unit_sphere` as seen from `lit_rec.p`. -/
def far_light : vec3 ℚ := ⟨0, 0, -3⟩

/-- The entry distance of the slab of `axis`: the smaller of
`(bb_min - o) / d` and `(bb_max - o) / d`. -/
def mesh.slab_entry (m : mesh K) (r : ray K) (axis : Nat) : K :=
  min ((m.bb_min.get axis - r.origin.get axis) / r.direction.get axis)
    ((m.bb_max.get axis - r.origin.get axis) / r.direction.get axis)

/-- The exit distance of the slab of `axis`: the larger of
`(bb_min - o) / d` and `(bb_max - o) / d`. -/
def mesh.slab_exit (m : mesh K) (r : ray K) (axis : Nat) : K :=
  max ((m.bb_min.get axis - r.origin.get axis) / r.direction.get axis)
    ((m.bb_max.get axis - r.origin.get axis) / r.direction.get axis)

/-- A box with `bb_min = (0, 0, 0)` and `bb_max = (1, 1, 1)` around no triangles. -/
def unit_box : mesh ℚ :=
  { triangles := [], mat := mat0, bb_min := ⟨0, 0, 0⟩, bb_max := ⟨1, 1, 1⟩, has_bb := true }

/-- A ray along the diagonal of `unit_box`, from `(-1, -1, -1)`. -/
def diag_ray : ray ℚ := ⟨⟨-1, -1, -1⟩, ⟨1, 1, 1⟩⟩

/-- A triangle tilted out of the coordinate planes, with unit normal
`(0, 3/5, 4/5)`; its box is `[0, 1] x [0, 4] x [-3, 0]`. -/
def tilt_tri : Triangle ℚ := ⟨⟨0, 0, 0⟩, ⟨1, 0, 0⟩, ⟨0, 4, -3⟩, ⟨0, 3 / 5, 4 / 5⟩⟩

/-- A mesh as left by the constructor and one `push_back` of `tilt_tri`. -/
def tilt_mesh : mesh ℚ := { mesh.new mat0 with triangles := [tilt_tri] }

/-- A ray meeting `tilt_tri` at `t = 1`, at the point `(1/4, 1, -3/4)`. -/
def tilt_ray : ray ℚ := ⟨⟨5 / 4, 2, 1 / 4⟩, ⟨-1, -1, -1⟩⟩

/-- The call `intersect_triangle(origin, direction, tri)` reports a hit: the
value it returns is not the `-1` sentinel (a value that passed the four checks
exceeds `epsilon`, so it is never `-1`). -/
def reports_hit (origin direction : vec3 K) (tri : Triangle K) : Prop :=
  intersect_triangle origin direction tri ≠ -1

/-- A ray parallel to the z axis (its x and y direction components are zero),
meeting `tilt_tri` at `t = 7/4`, at the point `(1/4, 1, -3/4)`. -/
def axis_ray : ray ℚ := ⟨⟨1 / 4, 1, 1⟩, ⟨0, 0, -1⟩⟩

/-! # Theorems -/

section VecLemmas

@[simp]
theorem vec3.add_x (u v : vec3 K) : (u + v).x = u.x + v.x := rfl
@[simp]
theorem vec3.add_y (u v : vec3 K) : (u + v).y = u.y + v.y := rfl
@[simp]
theorem vec3.add_z (u v : vec3 K) : (u + v).z = u.z + v.z := rfl
@[simp]
theorem vec3.sub_x (u v : vec3 K) : (u - v).x = u.x - v.x := rfl
@[simp]
theorem vec3.sub_y (u v : vec3 K) : (u - v).y = u.y - v.y := rfl
@[simp]
theorem vec3.sub_z (u v : vec3 K) : (u - v).z = u.z - v.z := rfl
@[simp]
theorem vec3.neg_x (v : vec3 K) : (-v).x = -v.x := rfl
@[simp]
theorem vec3.neg_y (v : vec3 K) : (-v).y = -v.y := rfl
@[simp]
theorem vec3.neg_z (v : vec3 K) : (-v).z = -v.z := rfl
@[simp]
theorem vec3.smul_x (t : K) (v : vec3 K) : (t * v).x = t * v.x := rfl
@[simp]
theorem vec3.smul_y (t : K) (v : vec3 K) : (t * v).y = t * v.y := rfl
@[simp]
theorem vec3.smul_z (t : K) (v : vec3 K) : (t * v).z = t * v.z := rfl
@[simp]
theorem vec3.sdiv_x (v : vec3 K) (t : K) : (v / t).x = v.x / t := rfl
@[simp]
theorem vec3.sdiv_y (v : vec3 K) (t : K) : (v / t).y = v.y / t := rfl
@[simp]
theorem vec3.sdiv_z (v : vec3 K) (t : K) : (v / t).z = v.z / t := rfl

theorem dot_neg_right (u v : vec3 K) : dot u (-v) = -dot u v := by
  simp only [dot, vec3.neg_x, vec3.neg_y, vec3.neg_z]; ring

theorem length_squared_neg (v : vec3 K) : (-v).length_squared = v.length_squared := by
  simp only [vec3.length_squared, vec3.neg_x, vec3.neg_y, vec3.neg_z]; ring

theorem length_squared_pos {v : vec3 K} (hv : v ≠ vec3.zero) : 0 < v.length_squared := by
  have hne : v.x ≠ 0 ∨ v.y ≠ 0 ∨ v.z ≠ 0 := by
    by_contra hcon
    push_neg at hcon
    exact hv (vec3.ext hcon.1 hcon.2.1 hcon.2.2)
  unfold vec3.length_squared
  rcases hne with h | h | h
  · have := mul_self_pos.mpr h
    nlinarith [mul_self_nonneg v.y, mul_self_nonneg v.z]
  · have := mul_self_pos.mpr h
    nlinarith [mul_self_nonneg v.x, mul_self_nonneg v.z]
  · have := mul_self_pos.mpr h
    nlinarith [mul_self_nonneg v.x, mul_self_nonneg v.y]

end VecLemmas

section SphereLemmas

variable (sqrt : K → K) (s : sphere K) (r : ray K)

theorem sphere_hit_unfold (tmin tmax : K) (rec : hit_record K) :
    s.hit sqrt r tmin tmax rec =
      if s.discriminant r < 0 then (false, rec)
      else if tmin < s.root_lo sqrt r ∧ s.root_lo sqrt r < tmax then
        (true, s.fill r (s.root_lo sqrt r) rec)
      else if tmin < s.root_hi sqrt r ∧ s.root_hi sqrt r < tmax then
        (true, s.fill r (s.root_hi sqrt r) rec)
      else (false, rec) := by
  have key : ∀ x : K, (x ≤ tmin ∨ tmax ≤ x) ↔ ¬(tmin < x ∧ x < tmax) := by
    intro x
    rw [not_and_or, not_lt, not_lt]
  simp only [sphere.hit, key, ite_not, sphere.discriminant, sphere.root_lo, sphere.root_hi,
    sphere.qa, sphere.qh, sphere.qc]

theorem on_surface_iff_quadratic (t : K) :
    s.on_surface r t ↔ sphere.qa r * (t * t) - 2 * s.qh r * t + s.qc r = 0 := by
  simp only [sphere.on_surface, sphere.qa, sphere.qh, sphere.qc, ray.«at», ray.direction,
    ray.origin, vec3.length_squared, dot, vec3.add_x, vec3.add_y, vec3.add_z, vec3.sub_x,
    vec3.sub_y, vec3.sub_z, vec3.smul_x, vec3.smul_y, vec3.smul_z]
  constructor <;> intro h <;> linear_combination h


theorem quadratic_identity (t : K) :
    (sphere.qa r * t - s.qh r) * (sphere.qa r * t - s.qh r) =
      sphere.qa r * (sphere.qa r * (t * t) - 2 * s.qh r * t + s.qc r) + s.discriminant r := by
  simp only [sphere.discriminant]; ring

theorem not_on_surface_of_neg_discriminant (hneg : s.discriminant r < 0) (t : K) :
    ¬ s.on_surface r t := by
  rw [on_surface_iff_quadratic]
  intro h0
  have hid := quadratic_identity s r t
  rw [h0, mul_zero, zero_add] at hid
  have := mul_self_nonneg (sphere.qa r * t - s.qh r)
  linarith

theorem on_surface_iff_root (ha : 0 < sphere.qa r) (hd : 0 ≤ s.discriminant r)
    (hs : s.sqrt_exact sqrt r) (t : K) :
    s.on_surface r t ↔ t = s.root_lo sqrt r ∨ t = s.root_hi sqrt r := by
  obtain ⟨_, hsq⟩ := hs hd
  have hane : sphere.qa r ≠ 0 := ne_of_gt ha
  rw [on_surface_iff_quadratic]
  have hid := quadratic_identity s r t
  have step : sphere.qa r * (t * t) - 2 * s.qh r * t + s.qc r = 0 ↔
      (sphere.qa r * t - s.qh r) * (sphere.qa r * t - s.qh r) =
        sqrt (s.discriminant r) * sqrt (s.discriminant r) := by
    rw [hsq, hid]
    constructor
    · intro h0; rw [h0]; ring
    · intro h1
      have h2 : sphere.qa r * (sphere.qa r * (t * t) - 2 * s.qh r * t + s.qc r) = 0 := by
        linarith
      rcases mul_eq_zero.mp h2 with h3 | h3
      · exact absurd h3 hane
      · exact h3
  rw [step, mul_self_eq_mul_self_iff]
  simp only [sphere.root_lo, sphere.root_hi]
  rw [eq_div_iff hane, eq_div_iff hane]
  constructor
  · rintro (h | h)
    · right; linear_combination h
    · left; linear_combination h
  · rintro (h | h)
    · right; linear_combination h
    · left; linear_combination h

theorem root_lo_le_root_hi (ha : 0 < sphere.qa r) (hd : 0 ≤ s.discriminant r)
    (hs : s.sqrt_exact sqrt r) : s.root_lo sqrt r ≤ s.root_hi sqrt r := by
  obtain ⟨h0, _⟩ := hs hd
  simp only [sphere.root_lo, sphere.root_hi]
  apply div_le_div_of_nonneg_right _ (le_of_lt ha)
  linarith

@[simp]
theorem fill_t (root : K) (rec : hit_record K) : (s.fill r root rec).t = root := rfl

@[simp]
theorem fill_p (root : K) (rec : hit_record K) :
    (s.fill r root rec).p = r.«at» root := rfl

@[simp]
theorem fill_mat (root : K) (rec : hit_record K) : (s.fill r root rec).mat = s.mat := rfl

theorem fill_normal (root : K) (rec : hit_record K) :
    (s.fill r root rec).normal =
      if dot r.direction ((r.«at» root - s.center) / s.radius) < 0 then
        (r.«at» root - s.center) / s.radius
      else -((r.«at» root - s.center) / s.radius) := by
  simp [sphere.fill, hit_record.set_face_normal]

theorem fill_front_face (root : K) (rec : hit_record K) :
    (s.fill r root rec).front_face =
      decide (dot r.direction ((r.«at» root - s.center) / s.radius) < 0) := by
  simp [sphere.fill, hit_record.set_face_normal]

/-- The outcome of a successful `sphere::hit`: the accepted root is one of the
two roots, lies in the window, and the record was filled from it. -/
theorem sphere_hit_success (tmin tmax : K) (rec : hit_record K)
    (hhit : (s.hit sqrt r tmin tmax rec).1 = true) :
    0 ≤ s.discriminant r ∧
      ((tmin < s.root_lo sqrt r ∧ s.root_lo sqrt r < tmax ∧
          (s.hit sqrt r tmin tmax rec).2 = s.fill r (s.root_lo sqrt r) rec) ∨
        (¬(tmin < s.root_lo sqrt r ∧ s.root_lo sqrt r < tmax) ∧
          tmin < s.root_hi sqrt r ∧ s.root_hi sqrt r < tmax ∧
          (s.hit sqrt r tmin tmax rec).2 = s.fill r (s.root_hi sqrt r) rec)) := by
  rw [sphere_hit_unfold] at hhit ⊢
  by_cases h1 : s.discriminant r < 0
  · rw [if_pos h1] at hhit
    exact absurd hhit (by simp)
  · rw [if_neg h1] at hhit ⊢
    refine ⟨not_lt.mp h1, ?_⟩
    by_cases h2 : tmin < s.root_lo sqrt r ∧ s.root_lo sqrt r < tmax
    · rw [if_pos h2]
      exact Or.inl ⟨h2.1, h2.2, rfl⟩
    · rw [if_neg h2] at hhit ⊢
      by_cases h3 : tmin < s.root_hi sqrt r ∧ s.root_hi sqrt r < tmax
      · rw [if_pos h3]
        exact Or.inr ⟨h2, h3.1, h3.2, rfl⟩
      · rw [if_neg h3] at hhit
        exact absurd hhit (by simp)

end SphereLemmas

section SphereClaims

theorem z_ray_discriminant : unit_sphere.discriminant z_ray = 1 := by
  norm_num [sphere.discriminant, sphere.qh, sphere.qa, sphere.qc, unit_sphere, sphere.new,
    z_ray, ray.direction, ray.origin, dot, vec3.length_squared]

theorem rat_sqrt_one : Rat.sqrt 1 = 1 := by
  simp

theorem z_ray_sqrt_exact : unit_sphere.sqrt_exact Rat.sqrt z_ray := by
  intro _
  rw [z_ray_discriminant, rat_sqrt_one]
  norm_num

theorem z_ray_direction_ne : z_ray.direction ≠ vec3.zero := by
  simp [z_ray, ray.direction, vec3.zero]

/-- C2: with a non-zero direction and a square root exact at the discriminant,
`sphere::hit` succeeds exactly when some `t` strictly inside the window puts
`r.at(t)` on the sphere; on success `rec.t` is such a `t`, is the least one, and
is the smaller root when that is strictly inside the window and the larger root
otherwise; a negative discriminant gives no hit and leaves the record alone. -/
theorem sphere_hit_iff_nearest_root (sqrt : K → K) (s : sphere K) (r : ray K)
    (tmin tmax : K) (rec : hit_record K)
    (hdir : r.direction ≠ vec3.zero) (hs : s.sqrt_exact sqrt r) :
    ((s.hit sqrt r tmin tmax rec).1 = true ↔
        ∃ t, tmin < t ∧ t < tmax ∧ s.on_surface r t) ∧
      ((s.hit sqrt r tmin tmax rec).1 = true →
        tmin < (s.hit sqrt r tmin tmax rec).2.t ∧
        (s.hit sqrt r tmin tmax rec).2.t < tmax ∧
        s.on_surface r (s.hit sqrt r tmin tmax rec).2.t ∧
        (∀ t, tmin < t → t < tmax → s.on_surface r t →
          (s.hit sqrt r tmin tmax rec).2.t ≤ t) ∧
        (s.hit sqrt r tmin tmax rec).2.t =
          if tmin < s.root_lo sqrt r ∧ s.root_lo sqrt r < tmax then s.root_lo sqrt r
          else s.root_hi sqrt r) ∧
      (s.discriminant r < 0 → s.hit sqrt r tmin tmax rec = (false, rec)) := by
  have ha : 0 < sphere.qa r := length_squared_pos hdir
  refine ⟨⟨fun hhit => ?_, fun hex => ?_⟩, fun hhit => ?_, fun hneg => ?_⟩
  · obtain ⟨hd, hcase⟩ := sphere_hit_success sqrt s r tmin tmax rec hhit
    rcases hcase with ⟨h1, h2, _⟩ | ⟨_, h1, h2, _⟩
    · exact ⟨_, h1, h2, (on_surface_iff_root sqrt s r ha hd hs _).mpr (Or.inl rfl)⟩
    · exact ⟨_, h1, h2, (on_surface_iff_root sqrt s r ha hd hs _).mpr (Or.inr rfl)⟩
  · obtain ⟨t, ht1, ht2, hon⟩ := hex
    have hd : 0 ≤ s.discriminant r := by
      by_contra hcon
      exact not_on_surface_of_neg_discriminant s r (not_le.mp hcon) t hon
    rw [sphere_hit_unfold, if_neg (not_lt.mpr hd)]
    by_cases hlo : tmin < s.root_lo sqrt r ∧ s.root_lo sqrt r < tmax
    · rw [if_pos hlo]
    · rw [if_neg hlo]
      rcases (on_surface_iff_root sqrt s r ha hd hs t).mp hon with ht | ht
      · exact absurd (ht ▸ ⟨ht1, ht2⟩) hlo
      · rw [if_pos (ht ▸ ⟨ht1, ht2⟩)]
  · obtain ⟨hd, hcase⟩ := sphere_hit_success sqrt s r tmin tmax rec hhit
    have hle := root_lo_le_root_hi sqrt s r ha hd hs
    rcases hcase with ⟨h1, h2, heq⟩ | ⟨hno, h1, h2, heq⟩
    · rw [heq, fill_t, if_pos ⟨h1, h2⟩]
      refine ⟨h1, h2, (on_surface_iff_root sqrt s r ha hd hs _).mpr (Or.inl rfl), ?_, rfl⟩
      intro t _ _ hon
      rcases (on_surface_iff_root sqrt s r ha hd hs t).mp hon with ht | ht
      · exact le_of_eq ht.symm
      · rw [ht]; exact hle
    · rw [heq, fill_t, if_neg hno]
      refine ⟨h1, h2, (on_surface_iff_root sqrt s r ha hd hs _).mpr (Or.inr rfl), ?_, rfl⟩
      intro t ht1 ht2 hon
      rcases (on_surface_iff_root sqrt s r ha hd hs t).mp hon with ht | ht
      · exact absurd (ht ▸ ⟨ht1, ht2⟩) hno
      · exact le_of_eq ht.symm
  · rw [sphere_hit_unfold, if_pos hneg]

/-- Witness for C2 at `unit_sphere`, `z_ray` and the window `(0, 10)`. -/
theorem sphere_hit_iff_nearest_root_witness :
    z_ray.direction ≠ vec3.zero ∧ unit_sphere.sqrt_exact Rat.sqrt z_ray ∧
    (((unit_sphere.hit Rat.sqrt z_ray 0 10 rec0).1 = true ↔
        ∃ t, (0 : ℚ) < t ∧ t < 10 ∧ unit_sphere.on_surface z_ray t) ∧
      ((unit_sphere.hit Rat.sqrt z_ray 0 10 rec0).1 = true →
        0 < (unit_sphere.hit Rat.sqrt z_ray 0 10 rec0).2.t ∧
        (unit_sphere.hit Rat.sqrt z_ray 0 10 rec0).2.t < 10 ∧
        unit_sphere.on_surface z_ray (unit_sphere.hit Rat.sqrt z_ray 0 10 rec0).2.t ∧
        (∀ t, 0 < t → t < 10 → unit_sphere.on_surface z_ray t →
          (unit_sphere.hit Rat.sqrt z_ray 0 10 rec0).2.t ≤ t) ∧
        (unit_sphere.hit Rat.sqrt z_ray 0 10 rec0).2.t =
          if 0 < unit_sphere.root_lo Rat.sqrt z_ray ∧ unit_sphere.root_lo Rat.sqrt z_ray < 10
          then unit_sphere.root_lo Rat.sqrt z_ray
          else unit_sphere.root_hi Rat.sqrt z_ray) ∧
      (unit_sphere.discriminant z_ray < 0 →
        unit_sphere.hit Rat.sqrt z_ray 0 10 rec0 = (false, rec0))) :=
  ⟨z_ray_direction_ne, z_ray_sqrt_exact,
    sphere_hit_iff_nearest_root Rat.sqrt unit_sphere z_ray 0 10 rec0 z_ray_direction_ne
      z_ray_sqrt_exact⟩

theorem z_ray_hit_value : (unit_sphere.hit Rat.sqrt z_ray 0 10 rec0).1 = true ∧
    (unit_sphere.hit Rat.sqrt z_ray 0 10 rec0).2.t = 2 := by
  rw [sphere_hit_unfold]
  have hlo : unit_sphere.root_lo Rat.sqrt z_ray = 2 := by
    simp only [sphere.root_lo, z_ray_discriminant, rat_sqrt_one]
    norm_num [sphere.qh, sphere.qa, unit_sphere, sphere.new, z_ray, ray.direction, ray.origin,
      dot, vec3.length_squared]
  rw [z_ray_discriminant, hlo]
  norm_num

end SphereClaims

section SphereOrientation

theorem dot_outward (s : sphere K) (r : ray K) (t : K) :
    dot r.direction ((r.«at» t - s.center) / s.radius) =
      (sphere.qa r * t - s.qh r) / s.radius := by
  simp only [dot, sphere.qa, sphere.qh, ray.«at», ray.direction, ray.origin,
    vec3.length_squared, vec3.add_x, vec3.add_y, vec3.add_z, vec3.sub_x, vec3.sub_y,
    vec3.sub_z, vec3.smul_x, vec3.smul_y, vec3.smul_z, vec3.sdiv_x, vec3.sdiv_y, vec3.sdiv_z]
  ring

theorem dot_outward_root_lo (sqrt : K → K) (s : sphere K) (r : ray K)
    (ha : 0 < sphere.qa r) :
    dot r.direction ((r.«at» (s.root_lo sqrt r) - s.center) / s.radius) =
      -sqrt (s.discriminant r) / s.radius := by
  rw [dot_outward, sphere.root_lo, mul_div_cancel₀ _ (ne_of_gt ha)]
  congr 1
  ring

theorem dot_outward_root_hi (sqrt : K → K) (s : sphere K) (r : ray K)
    (ha : 0 < sphere.qa r) :
    dot r.direction ((r.«at» (s.root_hi sqrt r) - s.center) / s.radius) =
      sqrt (s.discriminant r) / s.radius := by
  rw [dot_outward, sphere.root_hi, mul_div_cancel₀ _ (ne_of_gt ha)]
  congr 1
  ring

theorem set_face_normal_dot_le (rec : hit_record K) (r : ray K) (n : vec3 K) :
    dot r.direction (rec.set_face_normal r n).normal ≤ 0 := by
  simp only [hit_record.set_face_normal]
  by_cases h : dot r.direction n < 0
  · simp only [h, decide_True, if_true]
    exact le_of_lt h
  · simp only [h, decide_False]
    rw [if_neg (by simp), dot_neg_right]
    linarith [not_lt.mp h]

theorem fill_dot_le (s : sphere K) (r : ray K) (root : K) (rec : hit_record K) :
    dot r.direction (s.fill r root rec).normal ≤ 0 := by
  rw [fill_normal]
  split_ifs with h
  · exact le_of_lt h
  · rw [dot_neg_right]
    linarith [not_lt.mp h]

theorem length_squared_sdiv (v : vec3 K) (t : K) :
    (v / t).length_squared = v.length_squared / (t * t) := by
  simp only [vec3.length_squared, vec3.sdiv_x, vec3.sdiv_y, vec3.sdiv_z]
  ring

theorem fill_normal_length (s : sphere K) (r : ray K) (root : K) (rec : hit_record K) :
    (s.fill r root rec).normal.length_squared =
      (r.«at» root - s.center).length_squared / (s.radius * s.radius) := by
  rw [fill_normal]
  split_ifs
  · exact length_squared_sdiv _ _
  · rw [length_squared_neg]; exact length_squared_sdiv _ _

theorem discriminant_pos_of_inside (s : sphere K) (r : ray K) (ha : 0 < sphere.qa r)
    (hin : s.qc r < 0) : 0 < s.discriminant r := by
  have h1 := mul_self_nonneg (s.qh r)
  have h2 : sphere.qa r * s.qc r < 0 := mul_neg_of_pos_of_neg ha hin
  simp only [sphere.discriminant]
  linarith

end SphereOrientation

section SphereRecordClaims

/-- C3: whenever `sphere::hit` succeeds (non-zero direction, square root exact
at the discriminant), the record has `t_min < rec.t < t_max`,
`rec.p = O + rec.t * D`, and `rec.p` lies on the sphere. -/
theorem sphere_hit_record_on_sphere (sqrt : K → K) (s : sphere K) (r : ray K)
    (tmin tmax : K) (rec : hit_record K)
    (hdir : r.direction ≠ vec3.zero) (hs : s.sqrt_exact sqrt r)
    (hhit : (s.hit sqrt r tmin tmax rec).1 = true) :
    tmin < (s.hit sqrt r tmin tmax rec).2.t ∧
      (s.hit sqrt r tmin tmax rec).2.t < tmax ∧
      (s.hit sqrt r tmin tmax rec).2.p =
        r.origin + (s.hit sqrt r tmin tmax rec).2.t * r.direction ∧
      ((s.hit sqrt r tmin tmax rec).2.p - s.center).length_squared =
        s.radius * s.radius := by
  have ha : 0 < sphere.qa r := length_squared_pos hdir
  obtain ⟨hd, hcase⟩ := sphere_hit_success sqrt s r tmin tmax rec hhit
  rcases hcase with ⟨h1, h2, heq⟩ | ⟨_, h1, h2, heq⟩
  · rw [heq, fill_t, fill_p]
    exact ⟨h1, h2, rfl, (on_surface_iff_root sqrt s r ha hd hs _).mpr (Or.inl rfl)⟩
  · rw [heq, fill_t, fill_p]
    exact ⟨h1, h2, rfl, (on_surface_iff_root sqrt s r ha hd hs _).mpr (Or.inr rfl)⟩

theorem z_ray_hit_true : (unit_sphere.hit Rat.sqrt z_ray 0 10 rec0).1 = true :=
  z_ray_hit_value.1

/-- Witness for C3 at `unit_sphere`, `z_ray` and the window `(0, 10)`. -/
theorem sphere_hit_record_on_sphere_witness :
    z_ray.direction ≠ vec3.zero ∧ unit_sphere.sqrt_exact Rat.sqrt z_ray ∧
      (unit_sphere.hit Rat.sqrt z_ray 0 10 rec0).1 = true ∧
      (0 < (unit_sphere.hit Rat.sqrt z_ray 0 10 rec0).2.t ∧
        (unit_sphere.hit Rat.sqrt z_ray 0 10 rec0).2.t < 10 ∧
        (unit_sphere.hit Rat.sqrt z_ray 0 10 rec0).2.p =
          z_ray.origin + (unit_sphere.hit Rat.sqrt z_ray 0 10 rec0).2.t * z_ray.direction ∧
        ((unit_sphere.hit Rat.sqrt z_ray 0 10 rec0).2.p -
            unit_sphere.center).length_squared =
          unit_sphere.radius * unit_sphere.radius) :=
  ⟨z_ray_direction_ne, z_ray_sqrt_exact, z_ray_hit_true,
    sphere_hit_record_on_sphere Rat.sqrt unit_sphere z_ray 0 10 rec0 z_ray_direction_ne
      z_ray_sqrt_exact z_ray_hit_true⟩

/-- C8: for a sphere of positive radius and a ray with non-zero direction whose
origin lies strictly inside (`|O - C|^2 < r^2`), with `0 <= t_min`: if
`sphere::hit` succeeds, the accepted root is the larger one and
`front_face = false`. -/
theorem sphere_hit_from_inside (sqrt : K → K) (s : sphere K) (r : ray K)
    (tmin tmax : K) (rec : hit_record K)
    (hdir : r.direction ≠ vec3.zero) (hs : s.sqrt_exact sqrt r)
    (hrad : 0 < s.radius)
    (hin : (r.origin - s.center).length_squared < s.radius * s.radius)
    (hwin : 0 ≤ tmin)
    (hhit : (s.hit sqrt r tmin tmax rec).1 = true) :
    (s.hit sqrt r tmin tmax rec).2.t = s.root_hi sqrt r ∧
      (s.hit sqrt r tmin tmax rec).2.front_face = false := by
  have ha : 0 < sphere.qa r := length_squared_pos hdir
  have hqc : s.qc r < 0 := by
    have hsym : (s.center - r.origin).length_squared = (r.origin - s.center).length_squared := by
      simp only [vec3.length_squared, vec3.sub_x, vec3.sub_y, vec3.sub_z]; ring
    simp only [sphere.qc, hsym]
    linarith
  have hdpos := discriminant_pos_of_inside s r ha hqc
  obtain ⟨hs0, hsq⟩ := hs (le_of_lt hdpos)
  have hlo : s.root_lo sqrt r < 0 := by
    simp only [sphere.root_lo]
    apply div_neg_of_neg_of_pos _ ha
    have h2 : sphere.qa r * s.qc r < 0 := mul_neg_of_pos_of_neg ha hqc
    have h3 : s.qh r * s.qh r < sqrt (s.discriminant r) * sqrt (s.discriminant r) := by
      rw [hsq]; simp only [sphere.discriminant]; linarith
    have h4 : s.qh r < sqrt (s.discriminant r) := by
      by_contra hcon
      have h5 := mul_self_le_mul_self hs0 (not_lt.mp hcon)
      linarith
    linarith
  obtain ⟨_, hcase⟩ := sphere_hit_success sqrt s r tmin tmax rec hhit
  rcases hcase with ⟨h1, _, _⟩ | ⟨_, _, _, heq⟩
  · exact absurd h1 (not_lt.mpr (le_trans (le_of_lt hlo) hwin))
  · rw [heq, fill_t, fill_front_face, dot_outward_root_hi sqrt s r ha]
    refine ⟨rfl, ?_⟩
    have : 0 ≤ sqrt (s.discriminant r) / s.radius := div_nonneg hs0 (le_of_lt hrad)
    simp only [decide_eq_false_iff_not, not_lt]
    exact this

end SphereRecordClaims

section SphereConcrete

theorem inner_ray_hit : (unit_sphere.hit Rat.sqrt inner_ray 0 10 rec0).1 = true := by
  norm_num [sphere.hit, unit_sphere, sphere.new, inner_ray, ray.direction, ray.origin, dot,
    vec3.length_squared]

theorem inner_ray_sqrt_exact : unit_sphere.sqrt_exact Rat.sqrt inner_ray := by
  norm_num [sphere.sqrt_exact, sphere.discriminant, sphere.qh, sphere.qa, sphere.qc,
    unit_sphere, sphere.new, inner_ray, ray.direction, ray.origin, dot, vec3.length_squared]

theorem far_window_hit : (unit_sphere.hit Rat.sqrt z_ray 3 10 rec0).1 = true ∧
    (unit_sphere.hit Rat.sqrt z_ray 3 10 rec0).2.front_face = false := by
  norm_num [sphere.hit, sphere.fill, hit_record.set_face_normal, unit_sphere, sphere.new,
    z_ray, ray.«at», ray.direction, ray.origin, dot, vec3.length_squared]

theorem tangent_hit : (unit_sphere.hit Rat.sqrt tangent_ray 0 10 rec0).1 = true ∧
    (unit_sphere.hit Rat.sqrt tangent_ray 0 10 rec0).2.front_face = false := by
  norm_num [sphere.hit, sphere.fill, hit_record.set_face_normal, unit_sphere, sphere.new,
    tangent_ray, ray.«at», ray.direction, ray.origin, dot, vec3.length_squared]

theorem point_sphere_hit : (point_sphere.hit Rat.sqrt z_ray 0 10 rec0).1 = true ∧
    (point_sphere.hit Rat.sqrt z_ray 0 10 rec0).2.front_face = false ∧
    (point_sphere.hit Rat.sqrt z_ray 0 10 rec0).2.normal.length_squared = 0 := by
  norm_num [sphere.hit, sphere.fill, hit_record.set_face_normal, point_sphere, sphere.new,
    z_ray, ray.«at», ray.direction, ray.origin, dot, vec3.length_squared]

end SphereConcrete

section SphereFaceClaims

theorem qc_pos_of_outside (s : sphere K) (r : ray K)
    (hout : s.radius * s.radius < (r.origin - s.center).length_squared) : 0 < s.qc r := by
  have hsym : (s.center - r.origin).length_squared = (r.origin - s.center).length_squared := by
    simp only [vec3.length_squared, vec3.sub_x, vec3.sub_y, vec3.sub_z]; ring
  simp only [sphere.qc, hsym]
  linarith

/-- C7 fails as stated.  Three rays with origin strictly outside the sphere and
a window with `0 <= t_min < t_max` on which `sphere::hit` succeeds with
`front_face = false`: (1) the window `(3, 10)` starts behind the near
intersection `t = 2` of `z_ray`, so the far one `t = 4` is accepted; (2)
`tangent_ray` touches the sphere, the dot product is `0`, not negative; (3)
`point_sphere` has radius zero, and the outward normal is a quotient by zero
(the field gives the zero vector, IEEE gives NaN; the comparison `< 0` is
false for both). -/
theorem sphere_hit_outside_front_face_fails :
    (unit_sphere.radius * unit_sphere.radius <
        (z_ray.origin - unit_sphere.center).length_squared ∧
      (0 : ℚ) ≤ 3 ∧ (3 : ℚ) < 10 ∧
      (unit_sphere.hit Rat.sqrt z_ray 3 10 rec0).1 = true ∧
      (unit_sphere.hit Rat.sqrt z_ray 3 10 rec0).2.front_face = false) ∧
    (unit_sphere.radius * unit_sphere.radius <
        (tangent_ray.origin - unit_sphere.center).length_squared ∧
      (0 : ℚ) ≤ 0 ∧ (0 : ℚ) < 10 ∧
      (unit_sphere.hit Rat.sqrt tangent_ray 0 10 rec0).1 = true ∧
      (unit_sphere.hit Rat.sqrt tangent_ray 0 10 rec0).2.front_face = false) ∧
    (point_sphere.radius * point_sphere.radius <
        (z_ray.origin - point_sphere.center).length_squared ∧
      (0 : ℚ) ≤ 0 ∧ (0 : ℚ) < 10 ∧
      (point_sphere.hit Rat.sqrt z_ray 0 10 rec0).1 = true ∧
      (point_sphere.hit Rat.sqrt z_ray 0 10 rec0).2.front_face = false) := by
  refine ⟨⟨?_, by norm_num, by norm_num, far_window_hit.1, far_window_hit.2⟩,
    ⟨?_, le_refl _, by norm_num, tangent_hit.1, tangent_hit.2⟩,
    ⟨?_, le_refl _, by norm_num, point_sphere_hit.1, point_sphere_hit.2.1⟩⟩
  · norm_num [unit_sphere, sphere.new, z_ray, ray.origin, vec3.length_squared]
  · norm_num [unit_sphere, sphere.new, tangent_ray, ray.origin, vec3.length_squared]
  · norm_num [point_sphere, sphere.new, z_ray, ray.origin, vec3.length_squared]

/-- C7 as amended: for a sphere of positive radius and a ray with non-zero
direction whose origin lies strictly outside (`r^2 < |O - C|^2`), whenever
`sphere::hit` succeeds `dot(D, rec.normal) <= 0`; and `front_face = true`
provided the ray is not tangent (`h^2 - a*c > 0`) and `t_min` is `0` or,
more generally, below the smaller root. -/
theorem sphere_hit_outside_front_face (sqrt : K → K) (s : sphere K) (r : ray K)
    (tmin tmax : K) (rec : hit_record K)
    (hdir : r.direction ≠ vec3.zero) (hs : s.sqrt_exact sqrt r)
    (hrad : 0 < s.radius)
    (hout : s.radius * s.radius < (r.origin - s.center).length_squared)
    (hhit : (s.hit sqrt r tmin tmax rec).1 = true) :
    dot r.direction (s.hit sqrt r tmin tmax rec).2.normal ≤ 0 ∧
      (0 < s.discriminant r → (tmin = 0 ∨ tmin < s.root_lo sqrt r) →
        (s.hit sqrt r tmin tmax rec).2.front_face = true) := by
  have ha : 0 < sphere.qa r := length_squared_pos hdir
  have hqc := qc_pos_of_outside s r hout
  obtain ⟨hd, hcase⟩ := sphere_hit_success sqrt s r tmin tmax rec hhit
  obtain ⟨hs0, hsq⟩ := hs hd
  have hle := root_lo_le_root_hi sqrt s r ha hd hs
  constructor
  · rcases hcase with ⟨_, _, heq⟩ | ⟨_, _, _, heq⟩ <;> rw [heq] <;> exact fill_dot_le s r _ rec
  · intro hdpos hwin
    have hspos : 0 < sqrt (s.discriminant r) := by
      rcases eq_or_lt_of_le hs0 with h0 | h0
      · rw [← h0] at hsq; linarith
      · exact h0
    have hlow : tmin < s.root_lo sqrt r := by
      rcases hwin with h0 | h0
      · rcases hcase with ⟨h1, _, _⟩ | ⟨_, h1, _, _⟩
        · exact h1
        · rw [h0] at h1 ⊢
          simp only [sphere.root_lo, sphere.root_hi] at h1 ⊢
          have hnum : 0 < s.qh r + sqrt (s.discriminant r) := by
            by_contra hcon
            exact absurd h1 (not_lt.mpr (div_nonpos_of_nonpos_of_nonneg (not_lt.mp hcon)
              (le_of_lt ha)))
          apply div_pos _ ha
          have hprod : (s.qh r - sqrt (s.discriminant r)) *
              (s.qh r + sqrt (s.discriminant r)) = sphere.qa r * s.qc r := by
            have : (s.qh r - sqrt (s.discriminant r)) * (s.qh r + sqrt (s.discriminant r)) =
                s.qh r * s.qh r - sqrt (s.discriminant r) * sqrt (s.discriminant r) := by ring
            rw [this, hsq]; simp only [sphere.discriminant]; ring
          have hpp : 0 < sphere.qa r * s.qc r := mul_pos ha hqc
          rw [← hprod] at hpp
          exact (pos_iff_pos_of_mul_pos hpp).mpr hnum
      · exact h0
    rcases hcase with ⟨_, _, heq⟩ | ⟨hno, _, h2, _⟩
    · rw [heq, fill_front_face, dot_outward_root_lo sqrt s r ha]
      have : -sqrt (s.discriminant r) / s.radius < 0 :=
        div_neg_of_neg_of_pos (by linarith) hrad
      simp only [decide_eq_true_eq]
      exact this
    · exact absurd ⟨hlow, lt_of_le_of_lt hle h2⟩ hno

theorem unit_sphere_radius_pos : 0 < unit_sphere.radius := by
  norm_num [unit_sphere, sphere.new]

theorem z_ray_outside : unit_sphere.radius * unit_sphere.radius <
    (z_ray.origin - unit_sphere.center).length_squared := by
  norm_num [unit_sphere, sphere.new, z_ray, ray.origin, vec3.length_squared]

/-- Witness for the amended C7 at `unit_sphere`, `z_ray`, window `(0, 10)`. -/
theorem sphere_hit_outside_front_face_witness :
    z_ray.direction ≠ vec3.zero ∧ unit_sphere.sqrt_exact Rat.sqrt z_ray ∧
      0 < unit_sphere.radius ∧
      unit_sphere.radius * unit_sphere.radius <
        (z_ray.origin - unit_sphere.center).length_squared ∧
      (unit_sphere.hit Rat.sqrt z_ray 0 10 rec0).1 = true ∧
      (dot z_ray.direction (unit_sphere.hit Rat.sqrt z_ray 0 10 rec0).2.normal ≤ 0 ∧
        (0 < unit_sphere.discriminant z_ray →
          ((0 : ℚ) = 0 ∨ 0 < unit_sphere.root_lo Rat.sqrt z_ray) →
          (unit_sphere.hit Rat.sqrt z_ray 0 10 rec0).2.front_face = true)) :=
  ⟨z_ray_direction_ne, z_ray_sqrt_exact, unit_sphere_radius_pos, z_ray_outside, z_ray_hit_true,
    sphere_hit_outside_front_face Rat.sqrt unit_sphere z_ray 0 10 rec0 z_ray_direction_ne
      z_ray_sqrt_exact unit_sphere_radius_pos z_ray_outside z_ray_hit_true⟩

theorem inner_ray_direction_ne : inner_ray.direction ≠ vec3.zero := by
  simp [inner_ray, ray.direction, vec3.zero]

theorem inner_ray_inside : (inner_ray.origin - unit_sphere.center).length_squared <
    unit_sphere.radius * unit_sphere.radius := by
  norm_num [unit_sphere, sphere.new, inner_ray, ray.origin, vec3.length_squared]

/-- Witness for C8 at `unit_sphere`, `inner_ray`, window `(0, 10)`. -/
theorem sphere_hit_from_inside_witness :
    inner_ray.direction ≠ vec3.zero ∧ unit_sphere.sqrt_exact Rat.sqrt inner_ray ∧
      0 < unit_sphere.radius ∧
      (inner_ray.origin - unit_sphere.center).length_squared <
        unit_sphere.radius * unit_sphere.radius ∧
      (0 : ℚ) ≤ 0 ∧
      (unit_sphere.hit Rat.sqrt inner_ray 0 10 rec0).1 = true ∧
      ((unit_sphere.hit Rat.sqrt inner_ray 0 10 rec0).2.t =
          unit_sphere.root_hi Rat.sqrt inner_ray ∧
        (unit_sphere.hit Rat.sqrt inner_ray 0 10 rec0).2.front_face = false) :=
  ⟨inner_ray_direction_ne, inner_ray_sqrt_exact, unit_sphere_radius_pos, inner_ray_inside,
    le_refl _, inner_ray_hit,
    sphere_hit_from_inside Rat.sqrt unit_sphere inner_ray 0 10 rec0 inner_ray_direction_ne
      inner_ray_sqrt_exact unit_sphere_radius_pos inner_ray_inside (le_refl _) inner_ray_hit⟩

/-- C9 fails as stated: `point_sphere` (radius zero) is hit by `z_ray`, whose
direction is non-zero, at its centre, and the stored normal is the quotient of
the zero vector by the zero radius, which is not of unit length (the zero
vector in the field, NaN in IEEE arithmetic). -/
theorem sphere_hit_normal_not_unit :
    z_ray.direction ≠ vec3.zero ∧ point_sphere.sqrt_exact Rat.sqrt z_ray ∧
      (point_sphere.hit Rat.sqrt z_ray 0 10 rec0).1 = true ∧
      (point_sphere.hit Rat.sqrt z_ray 0 10 rec0).2.normal.length_squared ≠ 1 := by
  refine ⟨z_ray_direction_ne, ?_, point_sphere_hit.1, ?_⟩
  · norm_num [sphere.sqrt_exact, sphere.discriminant, sphere.qh, sphere.qa, sphere.qc,
      point_sphere, sphere.new, z_ray, ray.direction, ray.origin, dot, vec3.length_squared]
  · rw [point_sphere_hit.2.2]
    norm_num

/-- C9 as amended: for a sphere of positive radius, a ray with non-zero
direction and any window for which `sphere::hit` succeeds, `rec.normal` has
unit length and `dot(D, rec.normal) <= 0`. -/
theorem sphere_hit_normal_unit (sqrt : K → K) (s : sphere K) (r : ray K)
    (tmin tmax : K) (rec : hit_record K)
    (hdir : r.direction ≠ vec3.zero) (hs : s.sqrt_exact sqrt r)
    (hrad : 0 < s.radius)
    (hhit : (s.hit sqrt r tmin tmax rec).1 = true) :
    (s.hit sqrt r tmin tmax rec).2.normal.length_squared = 1 ∧
      dot r.direction (s.hit sqrt r tmin tmax rec).2.normal ≤ 0 := by
  have ha : 0 < sphere.qa r := length_squared_pos hdir
  have hr2 : s.radius * s.radius ≠ 0 := ne_of_gt (mul_pos hrad hrad)
  obtain ⟨hd, hcase⟩ := sphere_hit_success sqrt s r tmin tmax rec hhit
  rcases hcase with ⟨_, _, heq⟩ | ⟨_, _, _, heq⟩
  · have hon : s.on_surface r (s.root_lo sqrt r) :=
      (on_surface_iff_root sqrt s r ha hd hs _).mpr (Or.inl rfl)
    rw [heq, fill_normal_length, hon, div_self hr2]
    exact ⟨rfl, fill_dot_le s r _ rec⟩
  · have hon : s.on_surface r (s.root_hi sqrt r) :=
      (on_surface_iff_root sqrt s r ha hd hs _).mpr (Or.inr rfl)
    rw [heq, fill_normal_length, hon, div_self hr2]
    exact ⟨rfl, fill_dot_le s r _ rec⟩

/-- Witness for the amended C9 at `unit_sphere`, `z_ray`, window `(0, 10)`. -/
theorem sphere_hit_normal_unit_witness :
    z_ray.direction ≠ vec3.zero ∧ unit_sphere.sqrt_exact Rat.sqrt z_ray ∧
      0 < unit_sphere.radius ∧
      (unit_sphere.hit Rat.sqrt z_ray 0 10 rec0).1 = true ∧
      ((unit_sphere.hit Rat.sqrt z_ray 0 10 rec0).2.normal.length_squared = 1 ∧
        dot z_ray.direction (unit_sphere.hit Rat.sqrt z_ray 0 10 rec0).2.normal ≤ 0) :=
  ⟨z_ray_direction_ne, z_ray_sqrt_exact, unit_sphere_radius_pos, z_ray_hit_true,
    sphere_hit_normal_unit Rat.sqrt unit_sphere z_ray 0 10 rec0 z_ray_direction_ne
      z_ray_sqrt_exact unit_sphere_radius_pos z_ray_hit_true⟩

end SphereFaceClaims

section TriangleLemmas

theorem epsilon_pos : (0 : K) < epsilon := by
  unfold epsilon; positivity

theorem intersect_triangle_unfold (origin direction : vec3 K) (tri : Triangle K) :
    intersect_triangle origin direction tri =
      if tri_det direction tri > -epsilon ∧ tri_det direction tri < epsilon then -1
      else if tri_a origin direction tri < 0 ∨ tri_a origin direction tri > 1 then -1
      else if tri_b origin direction tri < 0 ∨
          tri_a origin direction tri + tri_b origin direction tri > 1 then -1
      else if tri_p origin direction tri > epsilon then tri_p origin direction tri
      else -1 := rfl

/-- Every value returned by `intersect_triangle` other than the sentinel passed
all four checks. -/
theorem intersect_triangle_checks (origin direction : vec3 K) (tri : Triangle K)
    (hhit : intersect_triangle origin direction tri ≠ -1) :
    ¬(tri_det direction tri > -epsilon ∧ tri_det direction tri < epsilon) ∧
      0 ≤ tri_a origin direction tri ∧ tri_a origin direction tri ≤ 1 ∧
      0 ≤ tri_b origin direction tri ∧
      tri_a origin direction tri + tri_b origin direction tri ≤ 1 ∧
      epsilon < tri_p origin direction tri ∧
      intersect_triangle origin direction tri = tri_p origin direction tri := by
  rw [intersect_triangle_unfold] at hhit ⊢
  by_cases h1 : tri_det direction tri > -epsilon ∧ tri_det direction tri < epsilon
  · rw [if_pos h1] at hhit; exact absurd rfl hhit
  rw [if_neg h1] at hhit ⊢
  by_cases h2 : tri_a origin direction tri < 0 ∨ tri_a origin direction tri > 1
  · rw [if_pos h2] at hhit; exact absurd rfl hhit
  rw [if_neg h2] at hhit ⊢
  by_cases h3 : tri_b origin direction tri < 0 ∨
      tri_a origin direction tri + tri_b origin direction tri > 1
  · rw [if_pos h3] at hhit; exact absurd rfl hhit
  rw [if_neg h3] at hhit ⊢
  by_cases h4 : tri_p origin direction tri > epsilon
  · rw [if_pos h4]
    rw [not_or, not_lt, not_lt] at h2 h3
    exact ⟨h1, h2.1, h2.2, h3.1, h3.2, h4, rfl⟩
  · rw [if_neg h4] at hhit; exact absurd rfl hhit

theorem tri_det_ne_zero {direction : vec3 K} {tri : Triangle K}
    (h : ¬(tri_det direction tri > -epsilon ∧ tri_det direction tri < epsilon)) :
    tri_det direction tri ≠ 0 := by
  intro h0
  apply h
  rw [h0]
  have := epsilon_pos (K := K)
  constructor <;> linarith

/-- Cramer identity behind Moller-Trumbore: with a non-zero determinant the
point at parameter `p` has barycentric weights `(1 - a - b, a, b)`. -/
theorem barycentric_identity (origin direction : vec3 K) (tri : Triangle K)
    (hdet : tri_det direction tri ≠ 0) :
    origin + tri_p origin direction tri * direction =
      (1 - tri_a origin direction tri - tri_b origin direction tri) * tri.v0 +
        tri_a origin direction tri * tri.v1 + tri_b origin direction tri * tri.v2 := by
  have hd := hdet
  simp only [tri_det, dot, cross, vec3.sub_x, vec3.sub_y, vec3.sub_z] at hd
  apply vec3.ext <;>
    simp only [tri_p, tri_a, tri_b, tri_det, dot, cross, vec3.add_x, vec3.add_y, vec3.add_z,
      vec3.sub_x, vec3.sub_y, vec3.sub_z, vec3.smul_x, vec3.smul_y, vec3.smul_z] <;>
    field_simp <;> ring

end TriangleLemmas

section TriangleClaims

/-- C4: whenever `intersect_triangle` returns a value `p` other than the `-1`
sentinel, the barycentric values `a` and `b` it computed satisfy `a >= 0`,
`b >= 0`, `a + b <= 1`, and `O + p*D = (1 - a - b)*v0 + a*v1 + b*v2`. -/
theorem intersect_triangle_hit_inside (origin direction : vec3 K) (tri : Triangle K)
    (hhit : intersect_triangle origin direction tri ≠ -1) :
    0 ≤ tri_a origin direction tri ∧ 0 ≤ tri_b origin direction tri ∧
      tri_a origin direction tri + tri_b origin direction tri ≤ 1 ∧
      origin + intersect_triangle origin direction tri * direction =
        (1 - tri_a origin direction tri - tri_b origin direction tri) * tri.v0 +
          tri_a origin direction tri * tri.v1 + tri_b origin direction tri * tri.v2 := by
  obtain ⟨hdet, ha, _, hb, hab, _, hp⟩ := intersect_triangle_checks origin direction tri hhit
  rw [hp]
  exact ⟨ha, hb, hab, barycentric_identity origin direction tri (tri_det_ne_zero hdet)⟩

end TriangleClaims

section ScanLemmas

variable (r : ray K) (tmin : K)

theorem scan_step_eq (st : scan_state K) (tri : Triangle K) :
    mesh.scan_step r tmin st tri =
      if intersect_triangle r.origin r.direction tri > tmin ∧
          intersect_triangle r.origin r.direction tri < st.closest_t then
        { closest_t := intersect_triangle r.origin r.direction tri, hit_anything := true,
          hit_normal := tri.normal }
      else st := rfl

/-- What the triangle loop leaves behind, started from any state: either no
triangle improved on the initial `closest_t` and the state is unchanged, or the
state records the first triangle attaining the least accepted distance. -/
theorem foldl_scan_cases (l : List (Triangle K)) :
    ∀ st : scan_state K,
      (l.foldl (mesh.scan_step r tmin) st = st ∧
          ∀ tri ∈ l, ¬(tmin < intersect_triangle r.origin r.direction tri ∧
            intersect_triangle r.origin r.direction tri < st.closest_t)) ∨
        ∃ pre tri post, l = pre ++ tri :: post ∧
          l.foldl (mesh.scan_step r tmin) st =
            { closest_t := intersect_triangle r.origin r.direction tri, hit_anything := true,
              hit_normal := tri.normal } ∧
          tmin < intersect_triangle r.origin r.direction tri ∧
          intersect_triangle r.origin r.direction tri < st.closest_t ∧
          (∀ x ∈ pre, intersect_triangle r.origin r.direction x ≠
            intersect_triangle r.origin r.direction tri) ∧
          (∀ x ∈ l, tmin < intersect_triangle r.origin r.direction x →
            intersect_triangle r.origin r.direction tri ≤
              intersect_triangle r.origin r.direction x) := by
  induction l with
  | nil =>
    intro st
    left
    exact ⟨rfl, fun _ h => absurd h (List.not_mem_nil _)⟩
  | cons x l ih =>
    intro st
    rw [List.foldl_cons]
    by_cases hx : intersect_triangle r.origin r.direction x > tmin ∧
        intersect_triangle r.origin r.direction x < st.closest_t
    · have hstep : mesh.scan_step r tmin st x =
          { closest_t := intersect_triangle r.origin r.direction x, hit_anything := true,
            hit_normal := x.normal } := by
        rw [scan_step_eq, if_pos hx]
      rw [hstep]
      right
      rcases ih ⟨intersect_triangle r.origin r.direction x, true, x.normal⟩ with ⟨heq, hnone⟩ | ⟨pre, tri, post, hl, heq, h1, h2, h3, h4⟩
      · refine ⟨[], x, l, rfl, heq, hx.1, hx.2, fun _ h => absurd h (List.not_mem_nil _), ?_⟩
        intro y hy hty
        rcases List.mem_cons.mp hy with rfl | hy
        · exact le_refl _
        · exact not_lt.mp (fun hlt => hnone y hy ⟨hty, hlt⟩)
      · refine ⟨x :: pre, tri, post, by rw [hl]; rfl, heq, h1, lt_trans h2 hx.2, ?_, ?_⟩
        · intro y hy
          rcases List.mem_cons.mp hy with rfl | hy
          · exact ne_of_gt h2
          · exact h3 y hy
        · intro y hy hty
          rcases List.mem_cons.mp hy with rfl | hy
          · exact le_of_lt h2
          · exact h4 y hy hty
    · have hstep : mesh.scan_step r tmin st x = st := by
        rw [scan_step_eq, if_neg hx]
      rw [hstep]
      rcases ih st with ⟨heq, hnone⟩ | ⟨pre, tri, post, hl, heq, h1, h2, h3, h4⟩
      · left
        refine ⟨heq, ?_⟩
        intro y hy
        rcases List.mem_cons.mp hy with rfl | hy
        · exact hx
        · exact hnone y hy
      · right
        refine ⟨x :: pre, tri, post, by rw [hl]; rfl, heq, h1, h2, ?_, ?_⟩
        · intro y hy
          rcases List.mem_cons.mp hy with rfl | hy
          · intro hxe
            exact hx ⟨by rw [hxe]; exact h1, by rw [hxe]; exact h2⟩
          · exact h3 y hy
        · intro y hy hty
          rcases List.mem_cons.mp hy with rfl | hy
          · by_contra hcon
            exact hx ⟨hty, lt_trans (not_le.mp hcon) h2⟩
          · exact h4 y hy hty

theorem mesh_hit_no_box (m : mesh K) (tmax : K) (rec : hit_record K)
    (hbb : m.has_bb = false) :
    m.hit r tmin tmax rec =
      if (m.scan r tmin tmax).hit_anything = true then
        (true, hit_record.set_face_normal
          { rec with t := (m.scan r tmin tmax).closest_t,
                     p := r.«at» (m.scan r tmin tmax).closest_t, mat := m.mat }
          r (m.scan r tmin tmax).hit_normal)
      else (false, rec) := by
  simp [mesh.hit, hbb]

end ScanLemmas

section MeshLemmas

/-- The outcome of a successful `mesh::hit`, with or without a box: the loop
found something and the record was filled from the loop state. -/
theorem mesh_hit_success (m : mesh K) (r : ray K) (tmin tmax : K) (rec : hit_record K)
    (hhit : (m.hit r tmin tmax rec).1 = true) :
    (m.scan r tmin tmax).hit_anything = true ∧
      (m.hit r tmin tmax rec).2 =
        hit_record.set_face_normal
          { rec with t := (m.scan r tmin tmax).closest_t,
                     p := r.«at» (m.scan r tmin tmax).closest_t, mat := m.mat }
          r (m.scan r tmin tmax).hit_normal := by
  unfold mesh.hit at hhit ⊢
  by_cases hb : m.has_bb = true ∧ m.intersect_bb r tmin tmax = false
  · rw [if_pos hb] at hhit
    exact absurd hhit (by simp)
  · rw [if_neg hb] at hhit ⊢
    by_cases hs : (m.scan r tmin tmax).hit_anything = true
    · refine ⟨hs, ?_⟩
      simp only [hs, if_true]
    · simp only [hs] at hhit
      exact absurd hhit (by simp)

/-- A mesh whose loop finds nothing reports no hit and returns the record it
was given. -/
theorem mesh_hit_of_scan_nothing (m : mesh K) (r : ray K) (tmin tmax : K)
    (rec : hit_record K) (hs : (m.scan r tmin tmax).hit_anything = false) :
    m.hit r tmin tmax rec = (false, rec) := by
  unfold mesh.hit
  by_cases hb : m.has_bb = true ∧ m.intersect_bb r tmin tmax = false
  · rw [if_pos hb]
  · rw [if_neg hb]
    simp [hs]

/-- The loop state of `mesh::hit` in terms of the triangle list. -/
theorem mesh_scan_cases (m : mesh K) (r : ray K) (tmin tmax : K) :
    ((m.scan r tmin tmax).hit_anything = false ∧
        ∀ tri ∈ m.triangles, ¬(tmin < intersect_triangle r.origin r.direction tri ∧
          intersect_triangle r.origin r.direction tri < tmax)) ∨
      ∃ pre tri post, m.triangles = pre ++ tri :: post ∧
        m.scan r tmin tmax =
          { closest_t := intersect_triangle r.origin r.direction tri, hit_anything := true,
            hit_normal := tri.normal } ∧
        tmin < intersect_triangle r.origin r.direction tri ∧
        intersect_triangle r.origin r.direction tri < tmax ∧
        (∀ x ∈ pre, intersect_triangle r.origin r.direction x ≠
          intersect_triangle r.origin r.direction tri) ∧
        (∀ x ∈ m.triangles, tmin < intersect_triangle r.origin r.direction x →
          intersect_triangle r.origin r.direction tri ≤
            intersect_triangle r.origin r.direction x) := by
  unfold mesh.scan
  rcases foldl_scan_cases r tmin m.triangles ⟨tmax, false, vec3.zero⟩ with
    ⟨heq, hnone⟩ | hex
  · left
    rw [heq]
    exact ⟨rfl, hnone⟩
  · right
    exact hex

end MeshLemmas

section MeshClaims

/-- The loop of `mesh::hit` without a box, in terms of the values that
`intersect_triangle` returns, the sentinel `-1` included: `mesh::hit` succeeds
exactly when some returned value `d` has `t_min < d < t_max`; then `rec.t` is
the least such value, `rec.p` is `r.at(rec.t)`, `rec.mat` is the material of
the mesh, and the normal is the stored normal of the first triangle returning
`rec.t`, oriented by the front-face rule. -/
theorem mesh_hit_without_box (m : mesh K) (r : ray K) (tmin tmax : K) (rec : hit_record K)
    (hbb : m.has_bb = false) :
    ((m.hit r tmin tmax rec).1 = true ↔
        ∃ tri ∈ m.triangles, tmin < intersect_triangle r.origin r.direction tri ∧
          intersect_triangle r.origin r.direction tri < tmax) ∧
      ((m.hit r tmin tmax rec).1 = true →
        (∀ tri ∈ m.triangles, tmin < intersect_triangle r.origin r.direction tri →
          intersect_triangle r.origin r.direction tri < tmax →
          (m.hit r tmin tmax rec).2.t ≤ intersect_triangle r.origin r.direction tri) ∧
        (m.hit r tmin tmax rec).2.p = r.«at» (m.hit r tmin tmax rec).2.t ∧
        (m.hit r tmin tmax rec).2.mat = m.mat ∧
        ∃ pre tri post, m.triangles = pre ++ tri :: post ∧
          intersect_triangle r.origin r.direction tri = (m.hit r tmin tmax rec).2.t ∧
          tmin < (m.hit r tmin tmax rec).2.t ∧ (m.hit r tmin tmax rec).2.t < tmax ∧
          (∀ x ∈ pre, intersect_triangle r.origin r.direction x ≠
            (m.hit r tmin tmax rec).2.t) ∧
          (m.hit r tmin tmax rec).2.front_face = decide (dot r.direction tri.normal < 0) ∧
          (m.hit r tmin tmax rec).2.normal =
            if dot r.direction tri.normal < 0 then tri.normal else -tri.normal) := by
  constructor
  · constructor
    · intro hhit
      obtain ⟨hany, _⟩ := mesh_hit_success m r tmin tmax rec hhit
      rcases mesh_scan_cases m r tmin tmax with ⟨hno, _⟩ | ⟨pre, tri, post, hl, _, h1, h2, _, _⟩
      · rw [hno] at hany; exact absurd hany (by simp)
      · exact ⟨tri, by rw [hl]; simp, h1, h2⟩
    · rintro ⟨tri, hmem, h1, h2⟩
      rcases mesh_scan_cases m r tmin tmax with ⟨_, hnone⟩ | ⟨_, _, _, _, heq, _, _, _, _⟩
      · exact absurd ⟨h1, h2⟩ (hnone tri hmem)
      · rw [mesh_hit_no_box r tmin m tmax rec hbb, heq]
        simp
  · intro hhit
    obtain ⟨hany, hrec⟩ := mesh_hit_success m r tmin tmax rec hhit
    rcases mesh_scan_cases m r tmin tmax with ⟨hno, _⟩ | ⟨pre, tri, post, hl, heq, h1, h2, h3, h4⟩
    · rw [hno] at hany; exact absurd hany (by simp)
    · rw [hrec, heq]
      refine ⟨fun x hx hx1 _ => h4 x hx hx1, rfl, rfl, pre, tri, post, hl, rfl, h1, h2, h3, rfl,
        ?_⟩
      simp [hit_record.set_face_normal]

end MeshClaims

section MeshConcrete

theorem slant_ray_distance :
    intersect_triangle slant_ray.origin slant_ray.direction flat_tri = 1 := by
  norm_num [intersect_triangle, epsilon, dot, cross, slant_ray, flat_tri, ray.origin,
    ray.direction]

theorem level_ray_distance :
    intersect_triangle level_ray.origin level_ray.direction flat_tri = -1 := by
  norm_num [intersect_triangle, epsilon, dot, cross, level_ray, flat_tri, ray.origin,
    ray.direction]

theorem flat_mesh_hit : (flat_mesh.hit slant_ray 0 10 rec0).1 = true := by
  have h := slant_ray_distance
  simp [mesh.hit, mesh.scan, mesh.scan_step, flat_mesh, mesh.new, h]

/-- Witness for C4 at `flat_tri` and `slant_ray`. -/
theorem intersect_triangle_hit_inside_witness :
    intersect_triangle slant_ray.origin slant_ray.direction flat_tri ≠ -1 ∧
      (0 ≤ tri_a slant_ray.origin slant_ray.direction flat_tri ∧
        0 ≤ tri_b slant_ray.origin slant_ray.direction flat_tri ∧
        tri_a slant_ray.origin slant_ray.direction flat_tri +
          tri_b slant_ray.origin slant_ray.direction flat_tri ≤ 1 ∧
        slant_ray.origin +
            intersect_triangle slant_ray.origin slant_ray.direction flat_tri *
              slant_ray.direction =
          (1 - tri_a slant_ray.origin slant_ray.direction flat_tri -
                tri_b slant_ray.origin slant_ray.direction flat_tri) * flat_tri.v0 +
              tri_a slant_ray.origin slant_ray.direction flat_tri * flat_tri.v1 +
            tri_b slant_ray.origin slant_ray.direction flat_tri * flat_tri.v2) :=
  ⟨by rw [slant_ray_distance]; norm_num,
    intersect_triangle_hit_inside slant_ray.origin slant_ray.direction flat_tri
      (by rw [slant_ray_distance]; norm_num)⟩

end MeshConcrete

section SentinelAndBox

/-- The first half of C6 holds of the code: a determinant within `epsilon` of
zero makes `intersect_triangle` return the sentinel. -/
theorem intersect_triangle_of_small_det (origin direction : vec3 K) (tri : Triangle K)
    (hdet : |tri_det direction tri| < epsilon) :
    intersect_triangle origin direction tri = -1 := by
  rw [intersect_triangle_unfold, if_pos]
  rw [abs_lt] at hdet
  exact ⟨hdet.1, hdet.2⟩

/-- For a window that does not contain the sentinel value `-1`, a mesh made of
one triangle near-parallel to the ray reports no hit. -/
theorem mesh_hit_single_parallel (m : mesh K) (r : ray K) (tri : Triangle K)
    (tmin tmax : K) (rec : hit_record K) (hm : m.triangles = [tri])
    (hdet : |tri_det r.direction tri| < epsilon) (hwin : ¬(tmin < -1 ∧ -1 < tmax)) :
    m.hit r tmin tmax rec = (false, rec) := by
  apply mesh_hit_of_scan_nothing
  have hd := intersect_triangle_of_small_det r.origin r.direction tri hdet
  simp only [mesh.scan, hm, List.foldl_cons, List.foldl_nil]
  rw [scan_step_eq, hd, if_neg]
  exact fun h => hwin ⟨h.1, h.2⟩

/-- C6 does not hold of the code.  `level_ray` runs parallel to the plane of
`flat_tri` (`det = 0`), `intersect_triangle` returns the sentinel `-1`, and
`mesh::hit` on the mesh made of that triangle, called with the window
`(-2, 0)`, accepts the sentinel as a distance and reports a hit at
`rec.t = -1`. -/
theorem mesh_hit_accepts_sentinel :
    |tri_det level_ray.direction flat_tri| < epsilon ∧
      flat_mesh.triangles = [flat_tri] ∧
      intersect_triangle level_ray.origin level_ray.direction flat_tri = -1 ∧
      (flat_mesh.hit level_ray (-2) 0 rec0).1 = true ∧
      (flat_mesh.hit level_ray (-2) 0 rec0).2.t = -1 := by
  have h := level_ray_distance
  refine ⟨?_, rfl, h, ?_, ?_⟩
  · norm_num [tri_det, epsilon, dot, cross, level_ray, flat_tri, ray.direction]
  · simp [mesh.hit, mesh.scan, mesh.scan_step, flat_mesh, mesh.new, h]
  · simp [mesh.hit, mesh.scan, mesh.scan_step, flat_mesh, mesh.new, h,
      hit_record.set_face_normal]

/-- With the box check enabled `mesh::hit` either reports no hit and returns the
record unchanged, or agrees with the same mesh without the box check. -/
theorem mesh_hit_box_or_scan (m : mesh K) (r : ray K) (tmin tmax : K) (rec : hit_record K) :
    m.hit r tmin tmax rec = (false, rec) ∨
      m.hit r tmin tmax rec = mesh.hit { m with has_bb := false } r tmin tmax rec := by
  by_cases hb : m.has_bb = true ∧ m.intersect_bb r tmin tmax = false
  · left
    unfold mesh.hit
    rw [if_pos hb]
  · right
    simp only [mesh.hit, mesh.scan, if_neg hb]
    simp

/-- C1 does not hold of the code.  `flat_mesh` lies in the plane `z = 0`, so
the box built by `bounding_box()` has `bb_min.z = bb_max.z = 0`.  For
`slant_ray` (all direction components non-zero) and the window `(0, 10)` the
z slab gives `t0 = t1 = 1`, the test `t_max <= t_min` fires, `intersect_bb`
returns false and `mesh::hit` reports no hit, while the same mesh with
`has_bb = false` reports the hit at `t = 1`. -/
theorem mesh_box_check_drops_hit :
    flat_mesh.bounding_box.has_bb = true ∧
      flat_mesh.bounding_box.bb_min = ⟨0, 0, 0⟩ ∧
      flat_mesh.bounding_box.bb_max = ⟨1, 1, 0⟩ ∧
      (slant_ray.direction.x ≠ 0 ∧ slant_ray.direction.y ≠ 0 ∧ slant_ray.direction.z ≠ 0) ∧
      flat_mesh.bounding_box.intersect_bb slant_ray 0 10 = false ∧
      (flat_mesh.bounding_box.hit slant_ray 0 10 rec0).1 = false ∧
      (mesh.hit { flat_mesh.bounding_box with has_bb := false } slant_ray 0 10 rec0).1 = true ∧
      (mesh.hit { flat_mesh.bounding_box with has_bb := false } slant_ray 0 10 rec0).2.t = 1 := by
  have h := slant_ray_distance
  have hbox : flat_mesh.bounding_box.intersect_bb slant_ray 0 10 = false := by
    simp [mesh.bounding_box, mesh.verts, vmin, vmax, flat_mesh, mesh.new, flat_tri,
      mesh.intersect_bb, mesh.intersect_bb_loop, slant_ray, ray.direction, ray.origin,
      vec3.get]
    norm_num
  refine ⟨rfl, ?_, ?_, ?_, hbox, ?_, ?_, ?_⟩
  · simp [mesh.bounding_box, mesh.verts, vmin, flat_mesh, mesh.new, flat_tri]
  · simp [mesh.bounding_box, mesh.verts, vmax, flat_mesh, mesh.new, flat_tri]
  · norm_num [slant_ray, ray.direction]
  · have hbb : flat_mesh.bounding_box.has_bb = true := rfl
    simp [mesh.hit, hbb, hbox]
  · simp [mesh.hit, mesh.scan, mesh.scan_step, mesh.bounding_box, flat_mesh, mesh.new, h]
  · simp [mesh.hit, mesh.scan, mesh.scan_step, mesh.bounding_box, flat_mesh, mesh.new, h,
      hit_record.set_face_normal]

end SentinelAndBox

section FaceNormalClaim

/-- C10: `set_face_normal` sets `front_face = true` exactly when
`dot(D, n) < 0`, stores `n` when `front_face` is true and `-n` otherwise, and so
always leaves `dot(D, normal) <= 0`; a successful `sphere::hit` (positive
radius, non-zero direction, where the outward normal `(rec.p - center) / radius`
is defined) and a successful `mesh::hit` (any box state, any ray) both return
the normal and the flag computed by `set_face_normal`, the mesh from the stored
normal of one of its triangles. -/
theorem set_face_normal_orients (sqrt : K → K) (rec : hit_record K) (r : ray K)
    (n : vec3 K) :
    ((rec.set_face_normal r n).front_face = true ↔ dot r.direction n < 0) ∧
      ((rec.set_face_normal r n).front_face = true → (rec.set_face_normal r n).normal = n) ∧
      ((rec.set_face_normal r n).front_face = false →
        (rec.set_face_normal r n).normal = -n) ∧
      dot r.direction (rec.set_face_normal r n).normal ≤ 0 ∧
      (∀ (s : sphere K) (tmin tmax : K), 0 < s.radius → r.direction ≠ vec3.zero →
        (s.hit sqrt r tmin tmax rec).1 = true →
        (s.hit sqrt r tmin tmax rec).2.normal =
            (rec.set_face_normal r
              (((s.hit sqrt r tmin tmax rec).2.p - s.center) / s.radius)).normal ∧
          (s.hit sqrt r tmin tmax rec).2.front_face =
            (rec.set_face_normal r
              (((s.hit sqrt r tmin tmax rec).2.p - s.center) / s.radius)).front_face ∧
          dot r.direction (s.hit sqrt r tmin tmax rec).2.normal ≤ 0) ∧
      (∀ (m : mesh K) (tmin tmax : K), (m.hit r tmin tmax rec).1 = true →
        ∃ tri ∈ m.triangles,
          (m.hit r tmin tmax rec).2.normal = (rec.set_face_normal r tri.normal).normal ∧
          (m.hit r tmin tmax rec).2.front_face =
            (rec.set_face_normal r tri.normal).front_face ∧
          dot r.direction (m.hit r tmin tmax rec).2.normal ≤ 0) := by
  refine ⟨?_, ?_, ?_, set_face_normal_dot_le rec r n, ?_, ?_⟩
  · simp [hit_record.set_face_normal]
  · intro h
    simp only [hit_record.set_face_normal] at h ⊢
    rw [if_pos h]
  · intro h
    simp only [hit_record.set_face_normal] at h ⊢
    rw [h]
    simp
  · intro s tmin tmax _ _ hhit
    obtain ⟨_, hcase⟩ := sphere_hit_success sqrt s r tmin tmax rec hhit
    rcases hcase with ⟨_, _, heq⟩ | ⟨_, _, _, heq⟩ <;> rw [heq] <;>
      exact ⟨rfl, rfl, fill_dot_le s r _ rec⟩
  · intro m tmin tmax hhit
    obtain ⟨hany, hrec⟩ := mesh_hit_success m r tmin tmax rec hhit
    rcases mesh_scan_cases m r tmin tmax with ⟨hno, _⟩ | ⟨pre, tri, post, hl, heq, _, _, _, _⟩
    · rw [hno] at hany; exact absurd hany (by simp)
    · refine ⟨tri, by rw [hl]; simp, ?_⟩
      rw [hrec, heq]
      exact ⟨rfl, rfl, set_face_normal_dot_le _ r _⟩

end FaceNormalClaim

section FoldLemmas

theorem foldl_min_le_init (l : List K) : ∀ s : K, l.foldl min s ≤ s := by
  induction l with
  | nil => intro s; exact le_refl _
  | cons x l ih =>
    intro s
    rw [List.foldl_cons]
    exact le_trans (ih _) (min_le_left _ _)

theorem foldl_min_le_mem (l : List K) : ∀ s : K, ∀ x ∈ l, l.foldl min s ≤ x := by
  induction l with
  | nil => intro s x hx; exact absurd hx (List.not_mem_nil _)
  | cons y l ih =>
    intro s x hx
    rw [List.foldl_cons]
    rcases List.mem_cons.mp hx with rfl | hx
    · exact le_trans (foldl_min_le_init l _) (min_le_right _ _)
    · exact ih _ x hx

theorem foldl_min_attained (l : List K) : ∀ s : K, l.foldl min s = s ∨ l.foldl min s ∈ l := by
  induction l with
  | nil => intro s; left; rfl
  | cons y l ih =>
    intro s
    rw [List.foldl_cons]
    rcases ih (min s y) with h | h
    · rcases min_choice s y with hm | hm
      · left; rw [h, hm]
      · right; rw [h, hm]; exact List.mem_cons_self _ _
    · right; exact List.mem_cons_of_mem _ h

theorem init_le_foldl_max (l : List K) : ∀ s : K, s ≤ l.foldl max s := by
  induction l with
  | nil => intro s; exact le_refl _
  | cons x l ih =>
    intro s
    rw [List.foldl_cons]
    exact le_trans (le_max_left _ _) (ih _)

theorem mem_le_foldl_max (l : List K) : ∀ s : K, ∀ x ∈ l, x ≤ l.foldl max s := by
  induction l with
  | nil => intro s x hx; exact absurd hx (List.not_mem_nil _)
  | cons y l ih =>
    intro s x hx
    rw [List.foldl_cons]
    rcases List.mem_cons.mp hx with rfl | hx
    · exact le_trans (le_max_right _ _) (init_le_foldl_max l _)
    · exact ih _ x hx

theorem foldl_max_attained (l : List K) : ∀ s : K, l.foldl max s = s ∨ l.foldl max s ∈ l := by
  induction l with
  | nil => intro s; left; rfl
  | cons y l ih =>
    intro s
    rw [List.foldl_cons]
    rcases ih (max s y) with h | h
    · rcases max_choice s y with hm | hm
      · left; rw [h, hm]
      · right; rw [h, hm]; exact List.mem_cons_self _ _
    · right; exact List.mem_cons_of_mem _ h

theorem foldl_vmin_x (l : List (vec3 K)) :
    ∀ s : vec3 K, (l.foldl vmin s).x = (l.map vec3.x).foldl min s.x := by
  induction l with
  | nil => intro s; rfl
  | cons v l ih => intro s; rw [List.foldl_cons, ih]; rfl

theorem foldl_vmin_y (l : List (vec3 K)) :
    ∀ s : vec3 K, (l.foldl vmin s).y = (l.map vec3.y).foldl min s.y := by
  induction l with
  | nil => intro s; rfl
  | cons v l ih => intro s; rw [List.foldl_cons, ih]; rfl

theorem foldl_vmin_z (l : List (vec3 K)) :
    ∀ s : vec3 K, (l.foldl vmin s).z = (l.map vec3.z).foldl min s.z := by
  induction l with
  | nil => intro s; rfl
  | cons v l ih => intro s; rw [List.foldl_cons, ih]; rfl

theorem foldl_vmax_x (l : List (vec3 K)) :
    ∀ s : vec3 K, (l.foldl vmax s).x = (l.map vec3.x).foldl max s.x := by
  induction l with
  | nil => intro s; rfl
  | cons v l ih => intro s; rw [List.foldl_cons, ih]; rfl

theorem foldl_vmax_y (l : List (vec3 K)) :
    ∀ s : vec3 K, (l.foldl vmax s).y = (l.map vec3.y).foldl max s.y := by
  induction l with
  | nil => intro s; rfl
  | cons v l ih => intro s; rw [List.foldl_cons, ih]; rfl

theorem foldl_vmax_z (l : List (vec3 K)) :
    ∀ s : vec3 K, (l.foldl vmax s).z = (l.map vec3.z).foldl max s.z := by
  induction l with
  | nil => intro s; rfl
  | cons v l ih => intro s; rw [List.foldl_cons, ih]; rfl

end FoldLemmas

section BoundingBoxLemmas

theorem mem_verts {F : Type} (m : mesh F) (v : vec3 F) :
    v ∈ m.verts ↔ ∃ tri ∈ m.triangles, tri.has_vertex v := by
  simp only [mesh.verts, List.mem_flatMap, Triangle.has_vertex, List.mem_cons,
    List.mem_singleton, List.not_mem_nil, or_false]

theorem bounding_box_nil (m : mesh K) (h : m.triangles = []) :
    m.bounding_box = { m with has_bb := false } := by
  unfold mesh.bounding_box
  split
  · rfl
  · next tri0 rest heq => rw [h] at heq; exact absurd heq (by simp)

theorem bounding_box_cons (m : mesh K) (tri0 : Triangle K) (rest : List (Triangle K))
    (h : m.triangles = tri0 :: rest) :
    m.bounding_box =
      { m with
        bb_min := m.verts.foldl vmin tri0.v0
        bb_max := m.verts.foldl vmax tri0.v0
        has_bb := true } := by
  unfold mesh.bounding_box
  split
  · next heq => rw [h] at heq; exact absurd heq (by simp)
  · next t r heq =>
    rw [h] at heq
    obtain ⟨h1, _⟩ := List.cons.inj heq
    rw [h1]

theorem bounding_box_triangles (m : mesh K) : m.bounding_box.triangles = m.triangles := by
  unfold mesh.bounding_box
  split <;> rfl

theorem bounding_box_mat (m : mesh K) : m.bounding_box.mat = m.mat := by
  unfold mesh.bounding_box
  split <;> rfl

theorem fold_box_contains (l : List (vec3 K)) (s v : vec3 K) (hv : v ∈ l) :
    in_box (l.foldl vmin s) (l.foldl vmax s) v := by
  unfold in_box
  rw [foldl_vmin_x, foldl_vmin_y, foldl_vmin_z, foldl_vmax_x, foldl_vmax_y, foldl_vmax_z]
  exact ⟨foldl_min_le_mem _ _ _ (List.mem_map_of_mem _ hv),
    mem_le_foldl_max _ _ _ (List.mem_map_of_mem _ hv),
    foldl_min_le_mem _ _ _ (List.mem_map_of_mem _ hv),
    mem_le_foldl_max _ _ _ (List.mem_map_of_mem _ hv),
    foldl_min_le_mem _ _ _ (List.mem_map_of_mem _ hv),
    mem_le_foldl_max _ _ _ (List.mem_map_of_mem _ hv)⟩

theorem fold_attained_aux {F : Type} (f : vec3 F → F) (l : List (vec3 F)) (s : vec3 F)
    (hs : s ∈ l) (c : F) (h : c = f s ∨ c ∈ l.map f) : ∃ v ∈ l, f v = c := by
  rcases h with h | h
  · exact ⟨s, hs, h.symm⟩
  · obtain ⟨v, hv, hfv⟩ := List.mem_map.mp h
    exact ⟨v, hv, hfv⟩

/-- Each coordinate of the two folded corners is the coordinate of some vertex
of the list, as long as the seed is itself in the list. -/
theorem fold_box_attained (l : List (vec3 K)) (s : vec3 K) (hs : s ∈ l) :
    (∃ v ∈ l, v.x = (l.foldl vmin s).x) ∧ (∃ v ∈ l, v.y = (l.foldl vmin s).y) ∧
      (∃ v ∈ l, v.z = (l.foldl vmin s).z) ∧ (∃ v ∈ l, v.x = (l.foldl vmax s).x) ∧
      (∃ v ∈ l, v.y = (l.foldl vmax s).y) ∧ (∃ v ∈ l, v.z = (l.foldl vmax s).z) := by
  rw [foldl_vmin_x, foldl_vmin_y, foldl_vmin_z, foldl_vmax_x, foldl_vmax_y, foldl_vmax_z]
  exact ⟨fold_attained_aux vec3.x l s hs _ (foldl_min_attained _ _),
    fold_attained_aux vec3.y l s hs _ (foldl_min_attained _ _),
    fold_attained_aux vec3.z l s hs _ (foldl_min_attained _ _),
    fold_attained_aux vec3.x l s hs _ (foldl_max_attained _ _),
    fold_attained_aux vec3.y l s hs _ (foldl_max_attained _ _),
    fold_attained_aux vec3.z l s hs _ (foldl_max_attained _ _)⟩

end BoundingBoxLemmas

section BoundingBoxClaim

/-- C11: after `bounding_box()` the flag `has_bb` is true exactly when the
triangle list is non-empty (the list itself is unchanged); and when it is
true, every vertex of every triangle lies in `[bb_min, bb_max]` on each axis
and each coordinate of `bb_min` and of `bb_max` is attained by a vertex of
some triangle, so the corners are the componentwise minimum and maximum. -/
theorem bounding_box_spec (m : mesh K) :
    (m.bounding_box.has_bb = true ↔ m.triangles ≠ []) ∧
      m.bounding_box.triangles = m.triangles ∧
      (m.bounding_box.has_bb = true →
        (∀ tri ∈ m.triangles, ∀ v, tri.has_vertex v →
          in_box m.bounding_box.bb_min m.bounding_box.bb_max v) ∧
        (∃ tri ∈ m.triangles, ∃ v, tri.has_vertex v ∧ v.x = m.bounding_box.bb_min.x) ∧
        (∃ tri ∈ m.triangles, ∃ v, tri.has_vertex v ∧ v.y = m.bounding_box.bb_min.y) ∧
        (∃ tri ∈ m.triangles, ∃ v, tri.has_vertex v ∧ v.z = m.bounding_box.bb_min.z) ∧
        (∃ tri ∈ m.triangles, ∃ v, tri.has_vertex v ∧ v.x = m.bounding_box.bb_max.x) ∧
        (∃ tri ∈ m.triangles, ∃ v, tri.has_vertex v ∧ v.y = m.bounding_box.bb_max.y) ∧
        (∃ tri ∈ m.triangles, ∃ v, tri.has_vertex v ∧ v.z = m.bounding_box.bb_max.z)) := by
  have hex : ∀ c : K, ∀ f : vec3 K → K, (∃ v ∈ m.verts, f v = c) →
      ∃ tri ∈ m.triangles, ∃ v, tri.has_vertex v ∧ f v = c := by
    rintro c f ⟨v, hv, hfv⟩
    obtain ⟨tri, htri, hvert⟩ := (mem_verts m v).mp hv
    exact ⟨tri, htri, v, hvert, hfv⟩
  cases hl : m.triangles with
  | nil =>
    rw [bounding_box_nil m hl]
    simp [hl]
  | cons tri0 rest =>
    have hseed : tri0.v0 ∈ m.verts :=
      (mem_verts m _).mpr ⟨tri0, by rw [hl]; exact List.mem_cons_self _ _, Or.inl rfl⟩
    rw [bounding_box_cons m tri0 rest hl]
    refine ⟨by simp, hl, fun _ => ⟨?_, ?_⟩⟩
    · intro tri htri v hv
      exact fold_box_contains m.verts tri0.v0 v ((mem_verts m v).mpr ⟨tri, hl ▸ htri, hv⟩)
    · obtain ⟨h1, h2, h3, h4, h5, h6⟩ := fold_box_attained m.verts tri0.v0 hseed
      rw [← hl]
      exact ⟨hex _ vec3.x h1, hex _ vec3.y h2, hex _ vec3.z h3, hex _ vec3.x h4,
        hex _ vec3.y h5, hex _ vec3.z h6⟩

end BoundingBoxClaim

section BoundingBoxWitness

/-- Witness for C11 at `flat_mesh`: the box is valid and contains every vertex. -/
theorem bounding_box_spec_witness :
    flat_mesh.bounding_box.has_bb = true ∧
      ∀ tri ∈ flat_mesh.triangles, ∀ v, tri.has_vertex v →
        in_box flat_mesh.bounding_box.bb_min flat_mesh.bounding_box.bb_max v :=
  ⟨rfl, ((bounding_box_spec flat_mesh).2.2 rfl).1⟩

end BoundingBoxWitness

section CentroidLemmas

theorem centroid_ray_det (tri : Triangle K) (h lam : K) :
    tri_det (centroid_ray tri h lam).direction tri = lam * tri.face_normal.length_squared := by
  simp only [tri_det, centroid_ray, ray.direction, Triangle.face_normal, dot, cross,
    vec3.length_squared, vec3.sub_x, vec3.sub_y, vec3.sub_z, vec3.neg_x, vec3.neg_y,
    vec3.neg_z, vec3.smul_x, vec3.smul_y, vec3.smul_z]
  ring

theorem centroid_ray_a (tri : Triangle K) (h lam : K)
    (hdet : lam * tri.face_normal.length_squared ≠ 0) :
    tri_a (centroid_ray tri h lam).origin (centroid_ray tri h lam).direction tri = 1 / 3 := by
  have hd := centroid_ray_det tri h lam
  rw [tri_a, hd]
  rw [mul_one_div, div_eq_iff hdet]
  simp only [centroid_ray, ray.direction, ray.origin, Triangle.centroid, Triangle.face_normal,
    dot, cross, vec3.length_squared, vec3.add_x, vec3.add_y, vec3.add_z, vec3.sub_x,
    vec3.sub_y, vec3.sub_z, vec3.neg_x, vec3.neg_y, vec3.neg_z, vec3.smul_x, vec3.smul_y,
    vec3.smul_z, vec3.sdiv_x, vec3.sdiv_y, vec3.sdiv_z]
  ring

theorem centroid_ray_b (tri : Triangle K) (h lam : K)
    (hdet : lam * tri.face_normal.length_squared ≠ 0) :
    tri_b (centroid_ray tri h lam).origin (centroid_ray tri h lam).direction tri = 1 / 3 := by
  have hd := centroid_ray_det tri h lam
  rw [tri_b, hd]
  rw [mul_one_div, div_eq_iff hdet]
  simp only [centroid_ray, ray.direction, ray.origin, Triangle.centroid, Triangle.face_normal,
    dot, cross, vec3.length_squared, vec3.add_x, vec3.add_y, vec3.add_z, vec3.sub_x,
    vec3.sub_y, vec3.sub_z, vec3.neg_x, vec3.neg_y, vec3.neg_z, vec3.smul_x, vec3.smul_y,
    vec3.smul_z, vec3.sdiv_x, vec3.sdiv_y, vec3.sdiv_z]
  ring

theorem centroid_ray_p (tri : Triangle K) (h lam : K)
    (hdet : lam * tri.face_normal.length_squared ≠ 0) :
    tri_p (centroid_ray tri h lam).origin (centroid_ray tri h lam).direction tri = h / lam := by
  have hd := centroid_ray_det tri h lam
  have hlam : lam ≠ 0 := left_ne_zero_of_mul hdet
  rw [tri_p, hd]
  rw [mul_one_div, div_eq_div_iff hdet hlam]
  simp only [centroid_ray, ray.direction, ray.origin, Triangle.centroid, Triangle.face_normal,
    dot, cross, vec3.length_squared, vec3.add_x, vec3.add_y, vec3.add_z, vec3.sub_x,
    vec3.sub_y, vec3.sub_z, vec3.neg_x, vec3.neg_y, vec3.neg_z, vec3.smul_x, vec3.smul_y,
    vec3.smul_z, vec3.sdiv_x, vec3.sdiv_y, vec3.sdiv_z]
  ring

end CentroidLemmas

section CentroidClaim

/-- C12 fails as stated.  (1) `tiny_ray` starts one unit above the centroid of
`tiny_tri` and runs down its unit normal toward the plane, but the determinant
is `1/1000000`, inside the parallelism threshold, and `intersect_triangle`
returns the sentinel.  (2) `near_ray` starts `1/100000` above the centroid of
`flat_tri` and runs down its unit normal; the distance `p = 1/100000` does not
exceed `epsilon` and `intersect_triangle` returns the sentinel. -/
theorem centroid_ray_not_hit :
    (tiny_ray.origin = tiny_tri.centroid + tiny_tri.normal ∧
      tiny_ray.direction = -tiny_tri.normal ∧
      tiny_tri.face_normal = (1 / 1000000 : ℚ) * tiny_tri.normal ∧
      tiny_ray = centroid_ray tiny_tri 1000000 1000000 ∧
      intersect_triangle tiny_ray.origin tiny_ray.direction tiny_tri = -1) ∧
    (near_ray.origin = flat_tri.centroid + (1 / 100000 : ℚ) * flat_tri.normal ∧
      near_ray.direction = -flat_tri.normal ∧
      flat_tri.face_normal = flat_tri.normal ∧
      near_ray = centroid_ray flat_tri (1 / 100000) 1 ∧
      intersect_triangle near_ray.origin near_ray.direction flat_tri = -1) := by
  refine ⟨⟨?_, ?_, ?_, ?_, ?_⟩, ⟨?_, ?_, ?_, ?_, ?_⟩⟩
  · apply vec3.ext <;> norm_num [tiny_ray, tiny_tri, Triangle.centroid, ray.origin]
  · apply vec3.ext <;> norm_num [tiny_ray, tiny_tri, ray.direction]
  · apply vec3.ext <;> norm_num [tiny_tri, Triangle.face_normal, cross]
  · simp only [centroid_ray, tiny_ray, ray.mk.injEq]
    constructor <;> apply vec3.ext <;>
      norm_num [tiny_tri, Triangle.centroid, Triangle.face_normal, cross]
  · norm_num [intersect_triangle, epsilon, dot, cross, tiny_ray, tiny_tri, ray.origin,
      ray.direction]
  · apply vec3.ext <;> norm_num [near_ray, flat_tri, Triangle.centroid, ray.origin]
  · apply vec3.ext <;> norm_num [near_ray, flat_tri, ray.direction]
  · apply vec3.ext <;> norm_num [flat_tri, Triangle.face_normal, cross]
  · simp only [centroid_ray, near_ray, ray.mk.injEq]
    constructor <;> apply vec3.ext <;>
      norm_num [flat_tri, Triangle.centroid, Triangle.face_normal, cross]
  · norm_num [intersect_triangle, epsilon, dot, cross, near_ray, flat_tri, ray.origin,
      ray.direction]

/-- C12 as amended: for every triangle with face normal `N = cross(v1 - v0,
v2 - v0)` and the ray with origin `centroid + h * N` and direction
`-(lam * N)`, whose determinant `lam * |N|^2` is at least `epsilon` in absolute
value and whose distance `h / lam` to the plane exceeds `epsilon`,
`intersect_triangle` reports the hit at `p = h / lam`, and the barycentric
values are `a = b = 1/3`, so `a >= 0`, `b >= 0`, `a + b <= 1`. -/
theorem centroid_ray_hit (tri : Triangle K) (h lam : K)
    (hdet : epsilon ≤ |lam * tri.face_normal.length_squared|)
    (hp : epsilon < h / lam) :
    intersect_triangle (centroid_ray tri h lam).origin (centroid_ray tri h lam).direction tri =
        h / lam ∧
      intersect_triangle (centroid_ray tri h lam).origin (centroid_ray tri h lam).direction tri ≠
        -1 ∧
      tri_a (centroid_ray tri h lam).origin (centroid_ray tri h lam).direction tri = 1 / 3 ∧
      tri_b (centroid_ray tri h lam).origin (centroid_ray tri h lam).direction tri = 1 / 3 ∧
      0 ≤ tri_a (centroid_ray tri h lam).origin (centroid_ray tri h lam).direction tri ∧
      0 ≤ tri_b (centroid_ray tri h lam).origin (centroid_ray tri h lam).direction tri ∧
      tri_a (centroid_ray tri h lam).origin (centroid_ray tri h lam).direction tri +
        tri_b (centroid_ray tri h lam).origin (centroid_ray tri h lam).direction tri ≤ 1 := by
  have heps := epsilon_pos (K := K)
  have hne : lam * tri.face_normal.length_squared ≠ 0 := by
    intro h0
    rw [h0, abs_zero] at hdet
    linarith
  have hd := centroid_ray_det tri h lam
  have ha := centroid_ray_a tri h lam hne
  have hb := centroid_ray_b tri h lam hne
  have hpp := centroid_ray_p tri h lam hne
  have hval : intersect_triangle (centroid_ray tri h lam).origin
      (centroid_ray tri h lam).direction tri = h / lam := by
    rw [intersect_triangle_unfold, ha, hb, hpp, hd]
    have h1 : ¬(lam * tri.face_normal.length_squared > -epsilon ∧
        lam * tri.face_normal.length_squared < epsilon) := by
      rintro ⟨h1, h2⟩
      exact absurd (abs_lt.mpr ⟨h1, h2⟩) (not_lt.mpr hdet)
    rw [if_neg h1, if_neg (by norm_num), if_neg (by norm_num), if_pos hp]
  refine ⟨hval, ?_, ha, hb, ?_, ?_, ?_⟩
  · rw [hval]
    intro hneg
    rw [hneg] at hp
    linarith
  · rw [ha]; norm_num
  · rw [hb]; norm_num
  · rw [ha, hb]; norm_num

/-- Witness for the amended C12 at `flat_tri` with `h = lam = 1`. -/
theorem centroid_ray_hit_witness :
    (epsilon : ℚ) ≤ |1 * flat_tri.face_normal.length_squared| ∧ (epsilon : ℚ) < 1 / 1 ∧
      intersect_triangle (centroid_ray flat_tri 1 1).origin
        (centroid_ray flat_tri 1 1).direction flat_tri = 1 / 1 :=
  have h1 : (epsilon : ℚ) ≤ |1 * flat_tri.face_normal.length_squared| := by
    norm_num [epsilon, flat_tri, Triangle.face_normal, cross, vec3.length_squared]
  have h2 : (epsilon : ℚ) < 1 / 1 := by norm_num [epsilon]
  ⟨h1, h2, (centroid_ray_hit flat_tri 1 1 h1 h2).1⟩

end CentroidClaim

section AimedRayClaim

theorem aimed_discriminant (s : sphere K) (r : ray K) (k : K)
    (hdir : r.direction = k * (s.center - r.origin)) :
    s.discriminant r =
      k * k * (s.center - r.origin).length_squared * (s.radius * s.radius) := by
  simp only [sphere.discriminant, sphere.qh, sphere.qa, sphere.qc, hdir, dot,
    vec3.length_squared, vec3.sub_x, vec3.sub_y, vec3.sub_z, vec3.smul_x, vec3.smul_y,
    vec3.smul_z]
  ring

/-- C13 fails as stated: `z_ray` starts outside `point_sphere` (radius zero) and
its direction is `1/3` of `center - origin`, yet the discriminant is `0`, not
strictly positive: the two roots coincide. -/
theorem aimed_ray_discriminant_zero :
    point_sphere.radius * point_sphere.radius <
        (z_ray.origin - point_sphere.center).length_squared ∧
      z_ray.direction = (1 / 3 : ℚ) * (point_sphere.center - z_ray.origin) ∧
      (0 : ℚ) < 1 / 3 ∧
      ¬ (0 < point_sphere.discriminant z_ray) ∧
      point_sphere.root_lo Rat.sqrt z_ray = point_sphere.root_hi Rat.sqrt z_ray := by
  have hd : point_sphere.discriminant z_ray = 0 := by
    norm_num [sphere.discriminant, sphere.qh, sphere.qa, sphere.qc, point_sphere, sphere.new,
      z_ray, ray.direction, ray.origin, dot, vec3.length_squared]
  refine ⟨?_, ?_, by norm_num, ?_, ?_⟩
  · norm_num [point_sphere, sphere.new, z_ray, ray.origin, vec3.length_squared]
  · apply vec3.ext <;> norm_num [point_sphere, sphere.new, z_ray, ray.origin, ray.direction]
  · rw [hd]; exact lt_irrefl 0
  · simp [sphere.root_lo, sphere.root_hi, hd]

/-- C13 as amended: for a sphere of positive radius and a ray whose origin lies
strictly outside and whose direction is a positive multiple `k` of
`center - origin`, the discriminant `h^2 - a*c` is strictly positive (with an
exact square root the two roots are distinct); and whenever the smaller root
lies in `(t_min, t_max)`, `sphere::hit` succeeds with `rec.t` that root. -/
theorem sphere_hit_aimed_at_center (sqrt : K → K) (s : sphere K) (r : ray K)
    (tmin tmax : K) (rec : hit_record K) (k : K) (hk : 0 < k)
    (hdir : r.direction = k * (s.center - r.origin))
    (hrad : 0 < s.radius)
    (hout : s.radius * s.radius < (r.origin - s.center).length_squared) :
    0 < s.discriminant r ∧
      (s.sqrt_exact sqrt r → s.root_lo sqrt r < s.root_hi sqrt r) ∧
      (tmin < s.root_lo sqrt r ∧ s.root_lo sqrt r < tmax →
        (s.hit sqrt r tmin tmax rec).1 = true ∧
          (s.hit sqrt r tmin tmax rec).2.t = s.root_lo sqrt r) := by
  have hsym : (s.center - r.origin).length_squared = (r.origin - s.center).length_squared := by
    simp only [vec3.length_squared, vec3.sub_x, vec3.sub_y, vec3.sub_z]; ring
  have hr2 : 0 < s.radius * s.radius := mul_pos hrad hrad
  have hL : 0 < (s.center - r.origin).length_squared := by rw [hsym]; linarith
  have hdisc : 0 < s.discriminant r := by
    rw [aimed_discriminant s r k hdir]
    exact mul_pos (mul_pos (mul_pos hk hk) hL) hr2
  have ha : 0 < sphere.qa r := by
    have : sphere.qa r = k * k * (s.center - r.origin).length_squared := by
      simp only [sphere.qa, hdir, vec3.length_squared, vec3.sub_x, vec3.sub_y, vec3.sub_z,
        vec3.smul_x, vec3.smul_y, vec3.smul_z]
      ring
    rw [this]
    exact mul_pos (mul_pos hk hk) hL
  refine ⟨hdisc, ?_, ?_⟩
  · intro hs
    obtain ⟨hs0, hsq⟩ := hs (le_of_lt hdisc)
    have hspos : 0 < sqrt (s.discriminant r) := by
      rcases eq_or_lt_of_le hs0 with h0 | h0
      · rw [← h0] at hsq; linarith
      · exact h0
    simp only [sphere.root_lo, sphere.root_hi]
    apply div_lt_div_of_pos_right _ ha
    linarith
  · intro hwin
    rw [sphere_hit_unfold, if_neg (not_lt.mpr (le_of_lt hdisc)), if_pos hwin]
    exact ⟨rfl, rfl⟩

/-- Witness for the amended C13 at `unit_sphere`, `z_ray`, window `(0, 10)`. -/
theorem sphere_hit_aimed_at_center_witness :
    (0 : ℚ) < 1 / 3 ∧ z_ray.direction = (1 / 3 : ℚ) * (unit_sphere.center - z_ray.origin) ∧
      0 < unit_sphere.radius ∧
      unit_sphere.radius * unit_sphere.radius <
        (z_ray.origin - unit_sphere.center).length_squared ∧
      0 < unit_sphere.discriminant z_ray :=
  have hdir : z_ray.direction = (1 / 3 : ℚ) * (unit_sphere.center - z_ray.origin) := by
    apply vec3.ext <;> norm_num [unit_sphere, sphere.new, z_ray, ray.origin, ray.direction]
  ⟨by norm_num, hdir, unit_sphere_radius_pos, z_ray_outside,
    (sphere_hit_aimed_at_center Rat.sqrt unit_sphere z_ray 0 10 rec0 (1 / 3) (by norm_num) hdir
      unit_sphere_radius_pos z_ray_outside).1⟩

end AimedRayClaim

section ShadingClaim

/-- C14: in the shading block of `main`, whenever the shadow query
`world.hit(shadow_ray, 0.001, light_distance, shadow_rec)` succeeds, the
diffuse and the specular colour are both zero and the sample colour equals
`rec.mat.ambient` on every channel. -/
theorem shade_in_shadow (sqrt : K → K) (pow : K → K → K)
    (world_hit : ray K → K → K → hit_record K → Bool × hit_record K)
    (light_position camera_center : vec3 K) (rec shadow_rec : hit_record K)
    (hshadow : (world_hit ⟨rec.p, vec3.normalize sqrt (light_position - rec.p)⟩ (1 / 1000)
      (vec3.length sqrt (light_position - rec.p)) shadow_rec).1 = true) :
    (shade sqrt pow world_hit light_position camera_center rec shadow_rec).diffuse_color =
        ⟨0, 0, 0⟩ ∧
      (shade sqrt pow world_hit light_position camera_center rec shadow_rec).specular_color =
        ⟨0, 0, 0⟩ ∧
      (shade sqrt pow world_hit light_position camera_center rec shadow_rec).sample_color =
        rec.mat.ambient ∧
      (shade sqrt pow world_hit light_position camera_center rec
        shadow_rec).sample_color.x = rec.mat.ambient.x ∧
      (shade sqrt pow world_hit light_position camera_center rec
        shadow_rec).sample_color.y = rec.mat.ambient.y ∧
      (shade sqrt pow world_hit light_position camera_center rec
        shadow_rec).sample_color.z = rec.mat.ambient.z := by
  have hsample : (shade sqrt pow world_hit light_position camera_center rec
      shadow_rec).sample_color = rec.mat.ambient := by
    simp only [shade, hshadow]
    apply vec3.ext <;> simp
  refine ⟨?_, ?_, hsample, ?_, ?_, ?_⟩
  · simp only [shade, hshadow]
    simp
  · simp only [shade, hshadow]
    simp
  · rw [hsample]
  · rw [hsample]
  · rw [hsample]

theorem rat_sqrt_36 : Rat.sqrt 36 = 6 := by
  have h := Rat.sqrt_eq 6
  rw [show (6 : ℚ) * 6 = 36 by norm_num, abs_of_pos (by norm_num)] at h
  exact h

theorem lit_rec_shadow_ray :
    (⟨lit_rec.p, vec3.normalize Rat.sqrt (far_light - lit_rec.p)⟩ : ray ℚ) = z_ray := by
  simp only [z_ray, ray.mk.injEq]
  constructor
  · rfl
  · apply vec3.ext <;>
      norm_num [vec3.normalize, vec3.length, far_light, lit_rec, vec3.length_squared,
        rat_sqrt_36]

theorem lit_rec_in_shadow :
    (unit_sphere.hit Rat.sqrt ⟨lit_rec.p, vec3.normalize Rat.sqrt (far_light - lit_rec.p)⟩
      (1 / 1000) (vec3.length Rat.sqrt (far_light - lit_rec.p)) rec0).1 = true := by
  rw [lit_rec_shadow_ray]
  have hlen : vec3.length Rat.sqrt (far_light - lit_rec.p) = 6 := by
    norm_num [vec3.length, far_light, lit_rec, vec3.length_squared, rat_sqrt_36]
  rw [hlen]
  norm_num [sphere.hit, unit_sphere, sphere.new, z_ray, ray.direction, ray.origin, dot,
    vec3.length_squared]

/-- Without an occluder the same record and light give a non-zero diffuse
colour, so the shadow branch is told apart from the lit one. -/
theorem lit_rec_unoccluded :
    (shade Rat.sqrt (fun x _ => x) empty_world far_light ⟨0, 0, 5⟩ lit_rec
      rec0).diffuse_color = ⟨4 / 5, 0, 0⟩ := by
  have h1 : Rat.sqrt 1 = 1 := rat_sqrt_one
  apply vec3.ext <;>
    norm_num [shade, empty_world, vec3.normalize, vec3.length, vec3.mul, vec3.muls, dot,
      far_light, lit_rec, red_mat, vec3.length_squared, rat_sqrt_36, h1]

/-- Witness for C14: the scene is `unit_sphere`, the lit point `(0, 0, 3)` with
the red material faces the light `(0, 0, -3)` on the far side of the sphere;
the sample colour is the ambient `(1/10, 0, 0)`. -/
theorem shade_in_shadow_witness :
    (unit_sphere.hit Rat.sqrt ⟨lit_rec.p, vec3.normalize Rat.sqrt (far_light - lit_rec.p)⟩
        (1 / 1000) (vec3.length Rat.sqrt (far_light - lit_rec.p)) rec0).1 = true ∧
      lit_rec.mat.ambient = ⟨1 / 10, 0, 0⟩ ∧
      (shade Rat.sqrt (fun x _ => x) (sphere.hit Rat.sqrt unit_sphere) far_light ⟨0, 0, 5⟩
        lit_rec rec0).diffuse_color = ⟨0, 0, 0⟩ ∧
      (shade Rat.sqrt (fun x _ => x) (sphere.hit Rat.sqrt unit_sphere) far_light ⟨0, 0, 5⟩
        lit_rec rec0).specular_color = ⟨0, 0, 0⟩ ∧
      (shade Rat.sqrt (fun x _ => x) (sphere.hit Rat.sqrt unit_sphere) far_light ⟨0, 0, 5⟩
        lit_rec rec0).sample_color = lit_rec.mat.ambient :=
  ⟨lit_rec_in_shadow, rfl,
    (shade_in_shadow Rat.sqrt (fun x _ => x) (sphere.hit Rat.sqrt unit_sphere) far_light
      ⟨0, 0, 5⟩ lit_rec rec0 lit_rec_in_shadow).1,
    (shade_in_shadow Rat.sqrt (fun x _ => x) (sphere.hit Rat.sqrt unit_sphere) far_light
      ⟨0, 0, 5⟩ lit_rec rec0 lit_rec_in_shadow).2.1,
    (shade_in_shadow Rat.sqrt (fun x _ => x) (sphere.hit Rat.sqrt unit_sphere) far_light
      ⟨0, 0, 5⟩ lit_rec rec0 lit_rec_in_shadow).2.2.1⟩

end ShadingClaim

section EmptyMeshClaim

/-- C15: a mesh with an empty triangle list reports no hit for every ray and
window and returns the record it was given, before `bounding_box()` and after
it (which leaves `has_bb = false`). -/
theorem empty_mesh_no_hit (m : mesh K) (r : ray K) (tmin tmax : K) (rec : hit_record K)
    (hm : m.triangles = []) :
    m.hit r tmin tmax rec = (false, rec) ∧
      m.bounding_box.hit r tmin tmax rec = (false, rec) ∧
      m.bounding_box.has_bb = false := by
  have hscan : ∀ m' : mesh K, m'.triangles = [] →
      (m'.scan r tmin tmax).hit_anything = false := by
    intro m' hm'
    simp only [mesh.scan, hm', List.foldl_nil]
  refine ⟨mesh_hit_of_scan_nothing m r tmin tmax rec (hscan m hm),
    mesh_hit_of_scan_nothing _ r tmin tmax rec
      (hscan _ (by rw [bounding_box_triangles]; exact hm)), ?_⟩
  rw [bounding_box_nil m hm]

/-- Witness for C15 at the mesh left by the constructor, with `slant_ray`. -/
theorem empty_mesh_no_hit_witness :
    (mesh.new mat0).triangles = [] ∧
      (mesh.new mat0).hit slant_ray 0 10 rec0 = (false, rec0) ∧
      (mesh.new mat0).bounding_box.hit slant_ray 0 10 rec0 = (false, rec0) ∧
      (mesh.new mat0).bounding_box.has_bb = false :=
  ⟨rfl, empty_mesh_no_hit (mesh.new mat0) slant_ray 0 10 rec0 rfl⟩

end EmptyMeshClaim

section DistanceChecks

/-- The window half of C16 holds of the code: a successful `mesh::hit` returns
`t_min < rec.t < t_max`, and `rec.t` is the value `intersect_triangle` returned
for some triangle of the mesh. -/
theorem mesh_hit_in_window (m : mesh K) (r : ray K) (tmin tmax : K) (rec : hit_record K)
    (hhit : (m.hit r tmin tmax rec).1 = true) :
    tmin < (m.hit r tmin tmax rec).2.t ∧ (m.hit r tmin tmax rec).2.t < tmax ∧
      (m.hit r tmin tmax rec).2.p = r.«at» (m.hit r tmin tmax rec).2.t ∧
      ∃ tri ∈ m.triangles,
        intersect_triangle r.origin r.direction tri = (m.hit r tmin tmax rec).2.t := by
  obtain ⟨hany, hrec⟩ := mesh_hit_success m r tmin tmax rec hhit
  rcases mesh_scan_cases m r tmin tmax with ⟨hno, _⟩ | ⟨pre, tri, post, hl, heq, h1, h2, _, _⟩
  · rw [hno] at hany; exact absurd hany (by simp)
  · rw [hrec, heq]
    exact ⟨h1, h2, rfl, tri, by rw [hl]; simp, rfl⟩

/-- When the window starts at `-1` or later the sentinel cannot be accepted, and
the distance of a successful `mesh::hit` exceeds `epsilon`. -/
theorem mesh_hit_above_epsilon (m : mesh K) (r : ray K) (tmin tmax : K) (rec : hit_record K)
    (hwin : -1 ≤ tmin) (hhit : (m.hit r tmin tmax rec).1 = true) :
    epsilon < (m.hit r tmin tmax rec).2.t := by
  obtain ⟨h1, _, _, tri, _, htri⟩ := mesh_hit_in_window m r tmin tmax rec hhit
  have hne : intersect_triangle r.origin r.direction tri ≠ -1 := by
    rw [htri]
    exact ne_of_gt (lt_of_le_of_lt hwin h1)
  obtain ⟨_, _, _, _, _, hp, hval⟩ := intersect_triangle_checks r.origin r.direction tri hne
  rw [← htri, hval]
  exact hp

/-- C16 does not hold of the code.  On `flat_mesh` with `level_ray` (parallel
to the triangle) and the window `(-2, 0)`, `mesh::hit` succeeds and returns
`rec.t = -1`, the sentinel of `intersect_triangle`, which is inside the window
but does not exceed `epsilon`. -/
theorem mesh_hit_distance_below_epsilon :
    (flat_mesh.hit level_ray (-2) 0 rec0).1 = true ∧
      (flat_mesh.hit level_ray (-2) 0 rec0).2.t = -1 ∧
      ¬ (epsilon < (flat_mesh.hit level_ray (-2) 0 rec0).2.t) ∧
      (-2 < (flat_mesh.hit level_ray (-2) 0 rec0).2.t ∧
        (flat_mesh.hit level_ray (-2) 0 rec0).2.t < 0) := by
  have h := level_ray_distance
  have ht : (flat_mesh.hit level_ray (-2) 0 rec0).2.t = -1 := by
    simp [mesh.hit, mesh.scan, mesh.scan_step, flat_mesh, mesh.new, h,
      hit_record.set_face_normal]
  refine ⟨?_, ht, ?_, ?_⟩
  · simp [mesh.hit, mesh.scan, mesh.scan_step, flat_mesh, mesh.new, h]
  · rw [ht]; norm_num [epsilon]
  · rw [ht]; norm_num

end DistanceChecks

section SlabLemmas

/-- One iteration of the loop of `intersect_bb` on an axis whose direction
component is zero: the ray passes the slab, with the running interval
unchanged, exactly when its origin lies between the two planes. -/
theorem intersect_bb_loop_zero (m : mesh K) (r : ray K) (axis : Nat) (rest : List Nat)
    (tmin tmax : K) (hd : r.direction.get axis = 0) :
    m.intersect_bb_loop r (axis :: rest) tmin tmax =
      if m.bb_min.get axis - r.origin.get axis > 0 ∨
          m.bb_max.get axis - r.origin.get axis < 0 then false
      else if tmax ≤ tmin then false
      else m.intersect_bb_loop r rest tmin tmax := by
  rw [mesh.intersect_bb_loop, if_pos hd]

/-- One iteration of the loop of `intersect_bb` on an axis with non-zero
direction component and `bb_min <= bb_max`: the running interval is narrowed
to `[max t_min entry, min t_max exit]` and rejected when that is empty or a
single point. -/
theorem intersect_bb_loop_cons (m : mesh K) (r : ray K) (axis : Nat) (rest : List Nat)
    (tmin tmax : K) (hd : r.direction.get axis ≠ 0)
    (hbox : m.bb_min.get axis ≤ m.bb_max.get axis) :
    m.intersect_bb_loop r (axis :: rest) tmin tmax =
      if min tmax (m.slab_exit r axis) ≤ max tmin (m.slab_entry r axis) then false
      else m.intersect_bb_loop r rest (max tmin (m.slab_entry r axis))
        (min tmax (m.slab_exit r axis)) := by
  have hsub : m.bb_min.get axis - r.origin.get axis ≤ m.bb_max.get axis - r.origin.get axis :=
    by linarith
  have hmaxite : ∀ a b : K, (if a > b then a else b) = max b a := by
    intro a b
    by_cases h : a > b
    · rw [if_pos h, max_eq_right (le_of_lt h)]
    · rw [if_neg h, max_eq_left (not_lt.mp h)]
  have hminite : ∀ a b : K, (if a < b then a else b) = min b a := by
    intro a b
    by_cases h : a < b
    · rw [if_pos h, min_eq_right (le_of_lt h)]
    · rw [if_neg h, min_eq_left (not_lt.mp h)]
  have hentry : (if 1 / r.direction.get axis < 0 then
        (m.bb_max.get axis - r.origin.get axis) * (1 / r.direction.get axis)
      else (m.bb_min.get axis - r.origin.get axis) * (1 / r.direction.get axis)) =
      m.slab_entry r axis := by
    simp only [mesh.slab_entry, mul_one_div]
    rcases lt_or_gt_of_ne hd with hneg | hpos
    · rw [if_pos (one_div_neg.mpr hneg)]
      exact (min_eq_right (div_le_div_of_nonpos_of_le (le_of_lt hneg) hsub)).symm
    · rw [if_neg (not_lt.mpr (le_of_lt (one_div_pos.mpr hpos)))]
      exact (min_eq_left (div_le_div_of_nonneg_right hsub (le_of_lt hpos))).symm
  have hexit : (if 1 / r.direction.get axis < 0 then
        (m.bb_min.get axis - r.origin.get axis) * (1 / r.direction.get axis)
      else (m.bb_max.get axis - r.origin.get axis) * (1 / r.direction.get axis)) =
      m.slab_exit r axis := by
    simp only [mesh.slab_exit, mul_one_div]
    rcases lt_or_gt_of_ne hd with hneg | hpos
    · rw [if_pos (one_div_neg.mpr hneg)]
      exact (max_eq_left (div_le_div_of_nonpos_of_le (le_of_lt hneg) hsub)).symm
    · rw [if_neg (not_lt.mpr (le_of_lt (one_div_pos.mpr hpos)))]
      exact (max_eq_right (div_le_div_of_nonneg_right hsub (le_of_lt hpos))).symm
  rw [mesh.intersect_bb_loop, if_neg hd]
  simp only [hentry, hexit, hmaxite, hminite]

/-- A parameter between the entry and the exit distance of a slab puts the
point of the ray between the two planes of that slab. -/
theorem slab_contains (lo hi o d t : K) (hd : d ≠ 0)
    (h1 : min ((lo - o) / d) ((hi - o) / d) ≤ t) (h2 : t ≤ max ((lo - o) / d) ((hi - o) / d))
    (hbox : lo ≤ hi) : lo ≤ o + t * d ∧ o + t * d ≤ hi := by
  have hsub : lo - o ≤ hi - o := by linarith
  rcases lt_or_gt_of_ne hd with hneg | hpos
  · rw [min_eq_right (div_le_div_of_nonpos_of_le (le_of_lt hneg) hsub)] at h1
    rw [max_eq_left (div_le_div_of_nonpos_of_le (le_of_lt hneg) hsub)] at h2
    rw [div_le_iff_of_neg hneg] at h1
    rw [le_div_iff_of_neg hneg] at h2
    constructor <;> linarith
  · rw [min_eq_left (div_le_div_of_nonneg_right hsub (le_of_lt hpos))] at h1
    rw [max_eq_right (div_le_div_of_nonneg_right hsub (le_of_lt hpos))] at h2
    rw [div_le_iff₀ hpos] at h1
    rw [le_div_iff₀ hpos] at h2
    constructor <;> linarith

end SlabLemmas

section SlabClaim

/-- C17: for a box with `bb_min <= bb_max` on each axis and a ray whose three
direction components are non-zero, `intersect_bb` returns true exactly when
`max(t_min, entry_x, entry_y, entry_z) < min(t_max, exit_x, exit_y, exit_z)`;
and whenever it returns true some `t` with `t_min < t < t_max` has `r.at(t)`
inside the box. -/
theorem intersect_bb_iff (m : mesh K) (r : ray K) (tmin tmax : K)
    (hbox : m.bb_min.x ≤ m.bb_max.x ∧ m.bb_min.y ≤ m.bb_max.y ∧ m.bb_min.z ≤ m.bb_max.z)
    (hdir : r.direction.x ≠ 0 ∧ r.direction.y ≠ 0 ∧ r.direction.z ≠ 0) :
    (m.intersect_bb r tmin tmax = true ↔
        max (max (max tmin (m.slab_entry r 0)) (m.slab_entry r 1)) (m.slab_entry r 2) <
          min (min (min tmax (m.slab_exit r 0)) (m.slab_exit r 1)) (m.slab_exit r 2)) ∧
      (m.intersect_bb r tmin tmax = true →
        ∃ t, tmin < t ∧ t < tmax ∧ in_box m.bb_min m.bb_max (r.«at» t)) := by
  have hiff : m.intersect_bb r tmin tmax = true ↔
      max (max (max tmin (m.slab_entry r 0)) (m.slab_entry r 1)) (m.slab_entry r 2) <
        min (min (min tmax (m.slab_exit r 0)) (m.slab_exit r 1)) (m.slab_exit r 2) := by
    rw [mesh.intersect_bb, intersect_bb_loop_cons m r 0 _ _ _ hdir.1 hbox.1,
      intersect_bb_loop_cons m r 1 _ _ _ hdir.2.1 hbox.2.1,
      intersect_bb_loop_cons m r 2 _ _ _ hdir.2.2 hbox.2.2, mesh.intersect_bb_loop]
    constructor
    · intro h
      by_contra hcon
      rw [not_lt] at hcon
      by_cases h0 : min tmax (m.slab_exit r 0) ≤ max tmin (m.slab_entry r 0)
      · rw [if_pos h0] at h; exact absurd h (by simp)
      rw [if_neg h0] at h
      by_cases h1 : min (min tmax (m.slab_exit r 0)) (m.slab_exit r 1) ≤
          max (max tmin (m.slab_entry r 0)) (m.slab_entry r 1)
      · rw [if_pos h1] at h; exact absurd h (by simp)
      rw [if_neg h1, if_pos hcon] at h
      exact absurd h (by simp)
    · intro h
      have e1 : max tmin (m.slab_entry r 0) ≤
          max (max tmin (m.slab_entry r 0)) (m.slab_entry r 1) := le_max_left _ _
      have e2 : max (max tmin (m.slab_entry r 0)) (m.slab_entry r 1) ≤
          max (max (max tmin (m.slab_entry r 0)) (m.slab_entry r 1)) (m.slab_entry r 2) :=
        le_max_left _ _
      have x1 : min (min tmax (m.slab_exit r 0)) (m.slab_exit r 1) ≤
          min tmax (m.slab_exit r 0) := min_le_left _ _
      have x2 : min (min (min tmax (m.slab_exit r 0)) (m.slab_exit r 1)) (m.slab_exit r 2) ≤
          min (min tmax (m.slab_exit r 0)) (m.slab_exit r 1) := min_le_left _ _
      rw [if_neg (not_le.mpr (by linarith)), if_neg (not_le.mpr (by linarith)),
        if_neg (not_le.mpr h)]
  refine ⟨hiff, fun htrue => ?_⟩
  have h := hiff.mp htrue
  obtain ⟨t, ht1, ht2⟩ := exists_between h
  have hlo := le_of_lt ht1
  have hhi := le_of_lt ht2
  have a0 : tmin ≤ max tmin (m.slab_entry r 0) := le_max_left _ _
  have a1 : m.slab_entry r 0 ≤ max tmin (m.slab_entry r 0) := le_max_right _ _
  have a2 : max tmin (m.slab_entry r 0) ≤
      max (max tmin (m.slab_entry r 0)) (m.slab_entry r 1) := le_max_left _ _
  have a3 : m.slab_entry r 1 ≤ max (max tmin (m.slab_entry r 0)) (m.slab_entry r 1) :=
    le_max_right _ _
  have a4 : max (max tmin (m.slab_entry r 0)) (m.slab_entry r 1) ≤
      max (max (max tmin (m.slab_entry r 0)) (m.slab_entry r 1)) (m.slab_entry r 2) :=
    le_max_left _ _
  have a5 : m.slab_entry r 2 ≤
      max (max (max tmin (m.slab_entry r 0)) (m.slab_entry r 1)) (m.slab_entry r 2) :=
    le_max_right _ _
  have b0 : min tmax (m.slab_exit r 0) ≤ tmax := min_le_left _ _
  have b1 : min tmax (m.slab_exit r 0) ≤ m.slab_exit r 0 := min_le_right _ _
  have b2 : min (min tmax (m.slab_exit r 0)) (m.slab_exit r 1) ≤
      min tmax (m.slab_exit r 0) := min_le_left _ _
  have b3 : min (min tmax (m.slab_exit r 0)) (m.slab_exit r 1) ≤ m.slab_exit r 1 :=
    min_le_right _ _
  have b4 : min (min (min tmax (m.slab_exit r 0)) (m.slab_exit r 1)) (m.slab_exit r 2) ≤
      min (min tmax (m.slab_exit r 0)) (m.slab_exit r 1) := min_le_left _ _
  have b5 : min (min (min tmax (m.slab_exit r 0)) (m.slab_exit r 1)) (m.slab_exit r 2) ≤
      m.slab_exit r 2 := min_le_right _ _
  have hx := slab_contains m.bb_min.x m.bb_max.x r.origin.x r.direction.x t hdir.1
    (by show m.slab_entry r 0 ≤ t; linarith) (by show t ≤ m.slab_exit r 0; linarith) hbox.1
  have hy := slab_contains m.bb_min.y m.bb_max.y r.origin.y r.direction.y t hdir.2.1
    (by show m.slab_entry r 1 ≤ t; linarith) (by show t ≤ m.slab_exit r 1; linarith) hbox.2.1
  have hz := slab_contains m.bb_min.z m.bb_max.z r.origin.z r.direction.z t hdir.2.2
    (by show m.slab_entry r 2 ≤ t; linarith) (by show t ≤ m.slab_exit r 2; linarith) hbox.2.2
  exact ⟨t, by linarith, by linarith, hx.1, hx.2, hy.1, hy.2, hz.1, hz.2⟩

theorem unit_box_diag : unit_box.intersect_bb diag_ray 0 10 = true := by
  simp [mesh.intersect_bb, mesh.intersect_bb_loop, unit_box, diag_ray, ray.direction,
    ray.origin, vec3.get]
  norm_num

/-- Witness for C17 at `unit_box`, `diag_ray` and the window `(0, 10)`. -/
theorem intersect_bb_iff_witness :
    (unit_box.bb_min.x ≤ unit_box.bb_max.x ∧ unit_box.bb_min.y ≤ unit_box.bb_max.y ∧
        unit_box.bb_min.z ≤ unit_box.bb_max.z) ∧
      (diag_ray.direction.x ≠ 0 ∧ diag_ray.direction.y ≠ 0 ∧ diag_ray.direction.z ≠ 0) ∧
      unit_box.intersect_bb diag_ray 0 10 = true ∧
      ∃ t, (0 : ℚ) < t ∧ t < 10 ∧ in_box unit_box.bb_min unit_box.bb_max (diag_ray.«at» t) :=
  have hbox : unit_box.bb_min.x ≤ unit_box.bb_max.x ∧ unit_box.bb_min.y ≤ unit_box.bb_max.y ∧
      unit_box.bb_min.z ≤ unit_box.bb_max.z := by
    norm_num [unit_box]
  have hdir : diag_ray.direction.x ≠ 0 ∧ diag_ray.direction.y ≠ 0 ∧
      diag_ray.direction.z ≠ 0 := by
    norm_num [diag_ray, ray.direction]
  ⟨hbox, hdir, unit_box_diag,
    (intersect_bb_iff unit_box diag_ray 0 10 hbox hdir).2 unit_box_diag⟩

end SlabClaim

section HitPointLemmas

/-- After `bounding_box()` every vertex of every triangle lies in the box. -/
theorem bounding_box_contains (m : mesh K) (tri : Triangle K) (htri : tri ∈ m.triangles)
    (v : vec3 K) (hv : tri.has_vertex v) :
    in_box m.bounding_box.bb_min m.bounding_box.bb_max v := by
  cases hl : m.triangles with
  | nil => rw [hl] at htri; exact absurd htri (List.not_mem_nil _)
  | cons tri0 rest =>
    rw [bounding_box_cons m tri0 rest hl]
    exact fold_box_contains m.verts tri0.v0 v ((mem_verts m v).mpr ⟨tri, htri, hv⟩)

theorem convex_between (lo hi x0 x1 x2 a b : K) (ha : 0 ≤ a) (hb : 0 ≤ b) (hab : a + b ≤ 1)
    (h0 : lo ≤ x0 ∧ x0 ≤ hi) (h1 : lo ≤ x1 ∧ x1 ≤ hi) (h2 : lo ≤ x2 ∧ x2 ≤ hi) :
    lo ≤ (1 - a - b) * x0 + a * x1 + b * x2 ∧ (1 - a - b) * x0 + a * x1 + b * x2 ≤ hi := by
  have hc : 0 ≤ 1 - a - b := by linarith
  have p0 := mul_nonneg hc (sub_nonneg.mpr h0.1)
  have p1 := mul_nonneg ha (sub_nonneg.mpr h1.1)
  have p2 := mul_nonneg hb (sub_nonneg.mpr h2.1)
  have q0 := mul_nonneg hc (sub_nonneg.mpr h0.2)
  have q1 := mul_nonneg ha (sub_nonneg.mpr h1.2)
  have q2 := mul_nonneg hb (sub_nonneg.mpr h2.2)
  constructor <;> nlinarith

/-- A convex combination of three points of a box lies in the box. -/
theorem convex_in_box (lo hi v0 v1 v2 : vec3 K) (a b : K) (ha : 0 ≤ a) (hb : 0 ≤ b)
    (hab : a + b ≤ 1) (h0 : in_box lo hi v0) (h1 : in_box lo hi v1) (h2 : in_box lo hi v2) :
    in_box lo hi ((1 - a - b) * v0 + a * v1 + b * v2) := by
  obtain ⟨a0, a1, a2, a3, a4, a5⟩ := h0
  obtain ⟨b0, b1, b2, b3, b4, b5⟩ := h1
  obtain ⟨c0, c1, c2, c3, c4, c5⟩ := h2
  have hx := convex_between lo.x hi.x v0.x v1.x v2.x a b ha hb hab ⟨a0, a1⟩ ⟨b0, b1⟩ ⟨c0, c1⟩
  have hy := convex_between lo.y hi.y v0.y v1.y v2.y a b ha hb hab ⟨a2, a3⟩ ⟨b2, b3⟩ ⟨c2, c3⟩
  have hz := convex_between lo.z hi.z v0.z v1.z v2.z a b ha hb hab ⟨a4, a5⟩ ⟨b4, b5⟩ ⟨c4, c5⟩
  exact ⟨hx.1, hx.2, hy.1, hy.2, hz.1, hz.2⟩

end HitPointLemmas

section HitPointClaim

/-- C18: for a mesh whose box was built by `bounding_box()` and a window with
`t_min >= 0`, whenever `mesh::hit` succeeds the reported point `rec.p` lies in
the box, `bb_min <= rec.p <= bb_max` on each axis. -/
theorem mesh_hit_point_in_box (m : mesh K) (r : ray K) (tmin tmax : K) (rec : hit_record K)
    (hwin : 0 ≤ tmin) (hhit : (m.bounding_box.hit r tmin tmax rec).1 = true) :
    in_box m.bounding_box.bb_min m.bounding_box.bb_max
      (m.bounding_box.hit r tmin tmax rec).2.p := by
  obtain ⟨h1, _, hp, tri, htri, hval⟩ :=
    mesh_hit_in_window m.bounding_box r tmin tmax rec hhit
  rw [bounding_box_triangles] at htri
  have hne : intersect_triangle r.origin r.direction tri ≠ -1 := by
    rw [hval]
    exact ne_of_gt (by linarith)
  obtain ⟨hdet, ha, _, hb, hab, _, hpv⟩ :=
    intersect_triangle_checks r.origin r.direction tri hne
  have hbary := barycentric_identity r.origin r.direction tri (tri_det_ne_zero hdet)
  have hpoint : (m.bounding_box.hit r tmin tmax rec).2.p =
      (1 - tri_a r.origin r.direction tri - tri_b r.origin r.direction tri) * tri.v0 +
        tri_a r.origin r.direction tri * tri.v1 + tri_b r.origin r.direction tri * tri.v2 := by
    rw [hp, ← hval, hpv, ← hbary]
    rfl
  rw [hpoint]
  exact convex_in_box _ _ _ _ _ _ _ ha hb hab
    (bounding_box_contains m tri htri _ (Or.inl rfl))
    (bounding_box_contains m tri htri _ (Or.inr (Or.inl rfl)))
    (bounding_box_contains m tri htri _ (Or.inr (Or.inr rfl)))

end HitPointClaim

section HitPointWitness

theorem tilt_ray_distance :
    intersect_triangle tilt_ray.origin tilt_ray.direction tilt_tri = 1 := by
  norm_num [intersect_triangle, epsilon, dot, cross, tilt_ray, tilt_tri, ray.origin,
    ray.direction]

theorem tilt_mesh_box_pass : tilt_mesh.bounding_box.intersect_bb tilt_ray 0 10 = true := by
  simp [mesh.bounding_box, mesh.verts, vmin, vmax, tilt_mesh, mesh.new, tilt_tri,
    mesh.intersect_bb, mesh.intersect_bb_loop, tilt_ray, ray.direction, ray.origin, vec3.get]
  norm_num

theorem tilt_mesh_hit : (tilt_mesh.bounding_box.hit tilt_ray 0 10 rec0).1 = true := by
  have h := tilt_ray_distance
  have hb := tilt_mesh_box_pass
  unfold mesh.hit
  rw [hb]
  simp [mesh.scan, mesh.scan_step, bounding_box_triangles, tilt_mesh, mesh.new, h]

theorem axis_ray_distance :
    intersect_triangle axis_ray.origin axis_ray.direction tilt_tri = 7 / 4 := by
  norm_num [intersect_triangle, epsilon, dot, cross, axis_ray, tilt_tri, ray.origin,
    ray.direction]

theorem tilt_mesh_axis_box_pass :
    tilt_mesh.bounding_box.intersect_bb axis_ray 0 10 = true := by
  simp [mesh.bounding_box, mesh.verts, vmin, vmax, tilt_mesh, mesh.new, tilt_tri,
    mesh.intersect_bb, mesh.intersect_bb_loop, axis_ray, ray.direction, ray.origin, vec3.get]
  norm_num

/-- On a ray with two zero direction components the built box lets the ray
through and `mesh::hit` reports the triangle at `t = 7/4`. -/
theorem tilt_mesh_axis_hit : (tilt_mesh.bounding_box.hit axis_ray 0 10 rec0).1 = true := by
  have h := axis_ray_distance
  have hb := tilt_mesh_axis_box_pass
  unfold mesh.hit
  rw [hb]
  norm_num [mesh.scan, mesh.scan_step, bounding_box_triangles, tilt_mesh, mesh.new, h]

/-- Witness for C18 at `tilt_mesh` and the window `(0, 10)`, once with
`tilt_ray` (no zero direction component) and once with `axis_ray` (parallel to
the z axis). -/
theorem mesh_hit_point_in_box_witness :
    (0 : ℚ) ≤ 0 ∧ (tilt_mesh.bounding_box.hit tilt_ray 0 10 rec0).1 = true ∧
      (tilt_mesh.bounding_box.hit axis_ray 0 10 rec0).1 = true ∧
      in_box tilt_mesh.bounding_box.bb_min tilt_mesh.bounding_box.bb_max
        (tilt_mesh.bounding_box.hit tilt_ray 0 10 rec0).2.p ∧
      in_box tilt_mesh.bounding_box.bb_min tilt_mesh.bounding_box.bb_max
        (tilt_mesh.bounding_box.hit axis_ray 0 10 rec0).2.p :=
  ⟨le_refl _, tilt_mesh_hit, tilt_mesh_axis_hit,
    mesh_hit_point_in_box tilt_mesh tilt_ray 0 10 rec0 (le_refl _) tilt_mesh_hit,
    mesh_hit_point_in_box tilt_mesh axis_ray 0 10 rec0 (le_refl _) tilt_mesh_axis_hit⟩

end HitPointWitness

section PermLemmas

/-- The loop of `mesh::hit` finds something on one triangle list exactly when
it does on a permutation of it, and then with the same `closest_t`. -/
theorem scan_perm (r : ray K) (tmin tmax : K) (m1 m2 : mesh K)
    (hperm : m1.triangles.Perm m2.triangles) :
    (m1.scan r tmin tmax).hit_anything = (m2.scan r tmin tmax).hit_anything ∧
      (m1.scan r tmin tmax).closest_t = (m2.scan r tmin tmax).closest_t := by
  rcases mesh_scan_cases m1 r tmin tmax with ⟨hno1, hnone1⟩ |
      ⟨pre1, tri1, post1, hl1, heq1, a1, a2, _, a4⟩ <;>
    rcases mesh_scan_cases m2 r tmin tmax with ⟨hno2, hnone2⟩ |
      ⟨pre2, tri2, post2, hl2, heq2, b1, b2, _, b4⟩
  · have e1 : m1.scan r tmin tmax = ⟨tmax, false, vec3.zero⟩ := by
      rcases foldl_scan_cases r tmin m1.triangles ⟨tmax, false, vec3.zero⟩ with
        ⟨h, _⟩ | ⟨_, tri, _, hl, _, c1, c2, _, _⟩
      · exact h
      · exact absurd ⟨c1, c2⟩ (hnone1 tri (by rw [hl]; simp))
    have e2 : m2.scan r tmin tmax = ⟨tmax, false, vec3.zero⟩ := by
      rcases foldl_scan_cases r tmin m2.triangles ⟨tmax, false, vec3.zero⟩ with
        ⟨h, _⟩ | ⟨_, tri, _, hl, _, c1, c2, _, _⟩
      · exact h
      · exact absurd ⟨c1, c2⟩ (hnone2 tri (by rw [hl]; simp))
    rw [e1, e2]
    exact ⟨rfl, rfl⟩
  · have hmem : tri2 ∈ m1.triangles := hperm.mem_iff.mpr (by rw [hl2]; simp)
    exact absurd ⟨b1, b2⟩ (hnone1 tri2 hmem)
  · have hmem : tri1 ∈ m2.triangles := hperm.mem_iff.mp (by rw [hl1]; simp)
    exact absurd ⟨a1, a2⟩ (hnone2 tri1 hmem)
  · have hmem1 : tri1 ∈ m2.triangles := hperm.mem_iff.mp (by rw [hl1]; simp)
    have hmem2 : tri2 ∈ m1.triangles := hperm.mem_iff.mpr (by rw [hl2]; simp)
    rw [heq1, heq2]
    exact ⟨rfl, le_antisymm (a4 tri2 hmem2 b1) (b4 tri1 hmem1 a1)⟩

/-- `intersect_bb` reads the mesh only through its two corners. -/
theorem intersect_bb_congr (m1 m2 : mesh K) (r : ray K) (tmin tmax : K)
    (hmin : m1.bb_min = m2.bb_min) (hmax : m1.bb_max = m2.bb_max) :
    m1.intersect_bb r tmin tmax = m2.intersect_bb r tmin tmax := by
  simp only [mesh.intersect_bb, mesh.intersect_bb_loop, hmin, hmax]

/-- The corners built by `bounding_box()` do not depend on the order of the
triangles. -/
theorem bounding_box_perm (m1 m2 : mesh K) (hperm : m1.triangles.Perm m2.triangles) :
    m1.bounding_box.has_bb = m2.bounding_box.has_bb ∧
      (m1.triangles ≠ [] → m1.bounding_box.bb_min = m2.bounding_box.bb_min ∧
        m1.bounding_box.bb_max = m2.bounding_box.bb_max) := by
  have hverts : ∀ v, v ∈ m1.verts ↔ v ∈ m2.verts := by
    intro v
    rw [mem_verts, mem_verts]
    constructor
    · rintro ⟨tri, h, hv⟩; exact ⟨tri, hperm.mem_iff.mp h, hv⟩
    · rintro ⟨tri, h, hv⟩; exact ⟨tri, hperm.mem_iff.mpr h, hv⟩
  cases hl1 : m1.triangles with
  | nil =>
    have hl2 : m2.triangles = [] := by
      rw [hl1] at hperm
      exact List.Perm.eq_nil (List.Perm.symm hperm)
    rw [bounding_box_nil m1 hl1, bounding_box_nil m2 hl2]
    exact ⟨rfl, fun h => absurd rfl h⟩
  | cons t1 rest1 =>
    cases hl2 : m2.triangles with
    | nil =>
      rw [hl2] at hperm
      rw [List.Perm.eq_nil hperm] at hl1
      exact absurd hl1 (by simp)
    | cons t2 rest2 =>
      have hs1 : t1.v0 ∈ m1.verts :=
        (mem_verts m1 _).mpr ⟨t1, by rw [hl1]; exact List.mem_cons_self _ _, Or.inl rfl⟩
      have hs2 : t2.v0 ∈ m2.verts :=
        (mem_verts m2 _).mpr ⟨t2, by rw [hl2]; exact List.mem_cons_self _ _, Or.inl rfl⟩
      rw [bounding_box_cons m1 t1 rest1 hl1, bounding_box_cons m2 t2 rest2 hl2]
      refine ⟨rfl, fun _ => ?_⟩
      obtain ⟨p1, p2, p3, p4, p5, p6⟩ := fold_box_attained m1.verts t1.v0 hs1
      obtain ⟨q1, q2, q3, q4, q5, q6⟩ := fold_box_attained m2.verts t2.v0 hs2
      have c1 := fun v hv => fold_box_contains m1.verts t1.v0 v hv
      have c2 := fun v hv => fold_box_contains m2.verts t2.v0 v hv
      constructor
      · apply vec3.ext
        · obtain ⟨v, hv, e⟩ := p1
          obtain ⟨w, hw, f⟩ := q1
          exact le_antisymm (f ▸ (c1 w ((hverts w).mpr hw)).1)
            (e ▸ (c2 v ((hverts v).mp hv)).1)
        · obtain ⟨v, hv, e⟩ := p2
          obtain ⟨w, hw, f⟩ := q2
          exact le_antisymm (f ▸ (c1 w ((hverts w).mpr hw)).2.2.1)
            (e ▸ (c2 v ((hverts v).mp hv)).2.2.1)
        · obtain ⟨v, hv, e⟩ := p3
          obtain ⟨w, hw, f⟩ := q3
          exact le_antisymm (f ▸ (c1 w ((hverts w).mpr hw)).2.2.2.2.1)
            (e ▸ (c2 v ((hverts v).mp hv)).2.2.2.2.1)
      · apply vec3.ext
        · obtain ⟨v, hv, e⟩ := p4
          obtain ⟨w, hw, f⟩ := q4
          exact le_antisymm (e ▸ (c2 v ((hverts v).mp hv)).2.1)
            (f ▸ (c1 w ((hverts w).mpr hw)).2.1)
        · obtain ⟨v, hv, e⟩ := p5
          obtain ⟨w, hw, f⟩ := q5
          exact le_antisymm (e ▸ (c2 v ((hverts v).mp hv)).2.2.2.1)
            (f ▸ (c1 w ((hverts w).mpr hw)).2.2.2.1)
        · obtain ⟨v, hv, e⟩ := p6
          obtain ⟨w, hw, f⟩ := q6
          exact le_antisymm (e ▸ (c2 v ((hverts v).mp hv)).2.2.2.2.2)
            (f ▸ (c1 w ((hverts w).mpr hw)).2.2.2.2.2)

end PermLemmas

section PermTheorems

/-- When no two triangles with different stored normals tie at an accepted
distance, the loop of `mesh::hit` ends in the same state on a permutation. -/
theorem scan_perm_state (r : ray K) (tmin tmax : K) (m1 m2 : mesh K)
    (hperm : m1.triangles.Perm m2.triangles)
    (hnotie : ∀ x ∈ m1.triangles, ∀ y ∈ m1.triangles,
      intersect_triangle r.origin r.direction x = intersect_triangle r.origin r.direction y →
      tmin < intersect_triangle r.origin r.direction x → x.normal = y.normal) :
    m1.scan r tmin tmax = m2.scan r tmin tmax := by
  obtain ⟨hany, hclose⟩ := scan_perm r tmin tmax m1 m2 hperm
  rcases foldl_scan_cases r tmin m1.triangles ⟨tmax, false, vec3.zero⟩ with
      ⟨e1, _⟩ | ⟨pre1, tri1, post1, hl1, heq1, a1, _, _, _⟩ <;>
    rcases foldl_scan_cases r tmin m2.triangles ⟨tmax, false, vec3.zero⟩ with
      ⟨e2, _⟩ | ⟨pre2, tri2, post2, hl2, heq2, _, _, _, _⟩
  · unfold mesh.scan; rw [e1, e2]
  · unfold mesh.scan at hany; rw [e1, heq2] at hany; exact absurd hany (by simp)
  · unfold mesh.scan at hany; rw [heq1, e2] at hany; exact absurd hany (by simp)
  · have hmem1 : tri1 ∈ m1.triangles := by rw [hl1]; simp
    have hmem2 : tri2 ∈ m1.triangles := hperm.mem_iff.mpr (by rw [hl2]; simp)
    unfold mesh.scan at hclose ⊢
    rw [heq1, heq2] at hclose ⊢
    have hd : intersect_triangle r.origin r.direction tri1 =
        intersect_triangle r.origin r.direction tri2 := hclose
    rw [hd, hnotie tri1 hmem1 tri2 hmem2 hd a1]

/-- Order independence of `mesh::hit` for two meshes in the same box state
(both flags equal, and equal corners when the flag is set): same outcome, same
`rec.t`, `rec.p` and `rec.mat`; and the same record altogether when no two
triangles with different normals tie at an accepted distance. -/
theorem mesh_hit_perm_same_box (m1 m2 : mesh K) (r : ray K) (tmin tmax : K)
    (rec : hit_record K) (hmat : m1.mat = m2.mat)
    (hperm : m1.triangles.Perm m2.triangles) (hbb : m1.has_bb = m2.has_bb)
    (hbox : m1.has_bb = true → m1.bb_min = m2.bb_min ∧ m1.bb_max = m2.bb_max) :
    (m1.hit r tmin tmax rec).1 = (m2.hit r tmin tmax rec).1 ∧
      (m1.hit r tmin tmax rec).2.t = (m2.hit r tmin tmax rec).2.t ∧
      (m1.hit r tmin tmax rec).2.p = (m2.hit r tmin tmax rec).2.p ∧
      (m1.hit r tmin tmax rec).2.mat = (m2.hit r tmin tmax rec).2.mat ∧
      ((∀ x ∈ m1.triangles, ∀ y ∈ m1.triangles,
          intersect_triangle r.origin r.direction x =
            intersect_triangle r.origin r.direction y →
          tmin < intersect_triangle r.origin r.direction x → x.normal = y.normal) →
        m1.hit r tmin tmax rec = m2.hit r tmin tmax rec) := by
  obtain ⟨hany, hclose⟩ := scan_perm r tmin tmax m1 m2 hperm
  by_cases hc : m1.has_bb = true ∧ m1.intersect_bb r tmin tmax = false
  · have hc2 : m2.has_bb = true ∧ m2.intersect_bb r tmin tmax = false := by
      obtain ⟨hmin, hmax⟩ := hbox hc.1
      rw [← hbb, ← intersect_bb_congr m1 m2 r tmin tmax hmin hmax]
      exact hc
    have e1 : m1.hit r tmin tmax rec = (false, rec) := by unfold mesh.hit; rw [if_pos hc]
    have e2 : m2.hit r tmin tmax rec = (false, rec) := by unfold mesh.hit; rw [if_pos hc2]
    rw [e1, e2]
    exact ⟨rfl, rfl, rfl, rfl, fun _ => rfl⟩
  · have hc2 : ¬(m2.has_bb = true ∧ m2.intersect_bb r tmin tmax = false) := by
      intro h2
      have hb1 : m1.has_bb = true := by rw [hbb]; exact h2.1
      obtain ⟨hmin, hmax⟩ := hbox hb1
      exact hc ⟨hb1, by rw [intersect_bb_congr m1 m2 r tmin tmax hmin hmax]; exact h2.2⟩
    by_cases hs : (m1.scan r tmin tmax).hit_anything = true
    · have hs2 : (m2.scan r tmin tmax).hit_anything = true := by rw [← hany]; exact hs
      have e1 : m1.hit r tmin tmax rec =
          (true, hit_record.set_face_normal
            { rec with t := (m1.scan r tmin tmax).closest_t,
                       p := r.«at» (m1.scan r tmin tmax).closest_t, mat := m1.mat }
            r (m1.scan r tmin tmax).hit_normal) := by
        unfold mesh.hit; rw [if_neg hc]; simp only [hs, if_true]
      have e2 : m2.hit r tmin tmax rec =
          (true, hit_record.set_face_normal
            { rec with t := (m2.scan r tmin tmax).closest_t,
                       p := r.«at» (m2.scan r tmin tmax).closest_t, mat := m2.mat }
            r (m2.scan r tmin tmax).hit_normal) := by
        unfold mesh.hit; rw [if_neg hc2]; simp only [hs2, if_true]
      rw [e1, e2]
      refine ⟨rfl, ?_, ?_, ?_, ?_⟩
      · exact hclose
      · show r.«at» _ = r.«at» _
        rw [hclose]
      · exact hmat
      · intro hnotie
        rw [scan_perm_state r tmin tmax m1 m2 hperm hnotie, hmat]
    · have hs1 : (m1.scan r tmin tmax).hit_anything = false := by
        simpa using hs
      have hs2 : (m2.scan r tmin tmax).hit_anything = false := by rw [← hany]; exact hs1
      rw [mesh_hit_of_scan_nothing m1 r tmin tmax rec hs1,
        mesh_hit_of_scan_nothing m2 r tmin tmax rec hs2]
      exact ⟨rfl, rfl, rfl, rfl, fun _ => rfl⟩

/-- Order independence for two meshes whose boxes were both built by
`bounding_box()`. -/
theorem mesh_hit_perm_built (n1 n2 : mesh K) (r : ray K) (tmin tmax : K)
    (rec : hit_record K) (hmat : n1.mat = n2.mat)
    (hperm : n1.triangles.Perm n2.triangles) :
    (n1.bounding_box.hit r tmin tmax rec).1 = (n2.bounding_box.hit r tmin tmax rec).1 ∧
      (n1.bounding_box.hit r tmin tmax rec).2.t = (n2.bounding_box.hit r tmin tmax rec).2.t ∧
      (n1.bounding_box.hit r tmin tmax rec).2.p = (n2.bounding_box.hit r tmin tmax rec).2.p := by
  obtain ⟨hflag, hcorner⟩ := bounding_box_perm n1 n2 hperm
  have hne : n1.bounding_box.has_bb = true → n1.triangles ≠ [] := by
    intro hb hnil
    rw [bounding_box_nil n1 hnil] at hb
    exact absurd hb (by simp)
  obtain ⟨h1, h2, h3, _, _⟩ := mesh_hit_perm_same_box n1.bounding_box n2.bounding_box r tmin
    tmax rec (by rw [bounding_box_mat, bounding_box_mat]; exact hmat)
    (by rw [bounding_box_triangles, bounding_box_triangles]; exact hperm) hflag
    (fun hb => hcorner (hne hb))
  exact ⟨h1, h2, h3⟩

/-- C19 does not hold of the code.  `flat_mesh` (box absent) and
`flat_mesh.bounding_box()` (box built) have the same material and the same
triangle list, yet for `slant_ray` and the window `(0, 10)` the first reports
the hit at `t = 1` and the second, whose flat box rejects the ray, reports
none. -/
theorem mesh_hit_differs_by_box_state :
    flat_mesh.mat = flat_mesh.bounding_box.mat ∧
      flat_mesh.triangles.Perm flat_mesh.bounding_box.triangles ∧
      flat_mesh.has_bb = false ∧
      flat_mesh.bounding_box.has_bb = true ∧
      (flat_mesh.hit slant_ray 0 10 rec0).1 = true ∧
      (flat_mesh.bounding_box.hit slant_ray 0 10 rec0).1 = false := by
  have hbox : flat_mesh.bounding_box.intersect_bb slant_ray 0 10 = false := by
    simp [mesh.bounding_box, mesh.verts, vmin, vmax, flat_mesh, mesh.new, flat_tri,
      mesh.intersect_bb, mesh.intersect_bb_loop, slant_ray, ray.direction, ray.origin,
      vec3.get]
    norm_num
  refine ⟨rfl, List.Perm.refl _, rfl, rfl, flat_mesh_hit, ?_⟩
  have hbb : flat_mesh.bounding_box.has_bb = true := rfl
  simp [mesh.hit, hbb, hbox]

end PermTheorems

section ValidDistanceLemmas

/-- A returned value above a window bound of at least `-1` is a reported hit. -/
theorem reports_hit_of_window (origin direction : vec3 K) (tri : Triangle K) (tmin : K)
    (hwin : -1 ≤ tmin) (h : tmin < intersect_triangle origin direction tri) :
    reports_hit origin direction tri :=
  ne_of_gt (lt_of_le_of_lt hwin h)

/-- A reported hit passed the four checks of `intersect_triangle`: its distance
is the local `p` and exceeds `epsilon`. -/
theorem reports_hit_distance (origin direction : vec3 K) (tri : Triangle K)
    (h : reports_hit origin direction tri) :
    intersect_triangle origin direction tri = tri_p origin direction tri ∧
      epsilon < intersect_triangle origin direction tri := by
  obtain ⟨_, _, _, _, _, hp, hval⟩ := intersect_triangle_checks origin direction tri h
  rw [hval]
  exact ⟨rfl, hp⟩

/-- For a mesh without a box and a window with `t_min >= -1` (so that the
sentinel lies outside it), `mesh::hit` succeeds exactly when some triangle
reports a hit at a distance `d` with `t_min < d < t_max`; then `rec.t` exceeds
`epsilon` and is the least such distance, `rec.p` is `r.at(rec.t)`, `rec.mat`
is the material of the mesh, and the normal is the stored normal of the first
triangle hit at `rec.t`, oriented by the front-face rule. -/
theorem mesh_hit_without_box_valid (m : mesh K) (r : ray K) (tmin tmax : K)
    (rec : hit_record K) (hbb : m.has_bb = false) (hwin : -1 ≤ tmin) :
    ((m.hit r tmin tmax rec).1 = true ↔
        ∃ tri ∈ m.triangles, reports_hit r.origin r.direction tri ∧
          tmin < intersect_triangle r.origin r.direction tri ∧
          intersect_triangle r.origin r.direction tri < tmax) ∧
      ((m.hit r tmin tmax rec).1 = true →
        epsilon < (m.hit r tmin tmax rec).2.t ∧
        (∀ tri ∈ m.triangles, reports_hit r.origin r.direction tri →
          tmin < intersect_triangle r.origin r.direction tri →
          intersect_triangle r.origin r.direction tri < tmax →
          (m.hit r tmin tmax rec).2.t ≤ intersect_triangle r.origin r.direction tri) ∧
        (m.hit r tmin tmax rec).2.p = r.«at» (m.hit r tmin tmax rec).2.t ∧
        (m.hit r tmin tmax rec).2.mat = m.mat ∧
        ∃ pre tri post, m.triangles = pre ++ tri :: post ∧
          reports_hit r.origin r.direction tri ∧
          intersect_triangle r.origin r.direction tri = (m.hit r tmin tmax rec).2.t ∧
          tmin < (m.hit r tmin tmax rec).2.t ∧ (m.hit r tmin tmax rec).2.t < tmax ∧
          (∀ x ∈ pre, intersect_triangle r.origin r.direction x ≠
            (m.hit r tmin tmax rec).2.t) ∧
          (m.hit r tmin tmax rec).2.front_face = decide (dot r.direction tri.normal < 0) ∧
          (m.hit r tmin tmax rec).2.normal =
            if dot r.direction tri.normal < 0 then tri.normal else -tri.normal) := by
  obtain ⟨hiff, hrest⟩ := mesh_hit_without_box m r tmin tmax rec hbb
  constructor
  · rw [hiff]
    constructor
    · rintro ⟨tri, hmem, h1, h2⟩
      exact ⟨tri, hmem, reports_hit_of_window _ _ tri tmin hwin h1, h1, h2⟩
    · rintro ⟨tri, hmem, _, h1, h2⟩
      exact ⟨tri, hmem, h1, h2⟩
  · intro hhit
    obtain ⟨hmin, hp, hmat, pre, tri, post, hl, hd, h1, h2, hpre, hff, hn⟩ := hrest hhit
    have hrep : reports_hit r.origin r.direction tri :=
      reports_hit_of_window _ _ tri tmin hwin (by rw [hd]; exact h1)
    refine ⟨?_, fun x hx _ hx1 hx2 => hmin x hx hx1 hx2, hp, hmat, pre, tri, post, hl, hrep,
      hd, h1, h2, hpre, hff, hn⟩
    rw [← hd]
    exact (reports_hit_distance _ _ tri hrep).2

end ValidDistanceLemmas

section ValidDistanceClaim

/-- C5 does not hold of the code.  `flat_mesh` has no box and its only triangle
is parallel to `level_ray`, so no triangle reports a hit and there is no
triangle distance at all; yet with the window `(-2, 0)` `mesh::hit` succeeds,
with `rec.t = -1`, the sentinel of `intersect_triangle`.  (The same triangle
does report a hit for `slant_ray`.) -/
theorem mesh_hit_without_reported_hit :
    flat_mesh.has_bb = false ∧
      (∀ tri ∈ flat_mesh.triangles,
        ¬ reports_hit level_ray.origin level_ray.direction tri) ∧
      (flat_mesh.hit level_ray (-2) 0 rec0).1 = true ∧
      (flat_mesh.hit level_ray (-2) 0 rec0).2.t = -1 ∧
      reports_hit slant_ray.origin slant_ray.direction flat_tri := by
  have h := level_ray_distance
  refine ⟨rfl, ?_, ?_, ?_, by rw [reports_hit, slant_ray_distance]; norm_num⟩
  · intro tri htri
    have htri' : tri = flat_tri := by
      simpa [flat_mesh, mesh.new] using htri
    rw [htri', reports_hit, h]
    exact fun hne => hne rfl
  · simp [mesh.hit, mesh.scan, mesh.scan_step, flat_mesh, mesh.new, h]
  · simp [mesh.hit, mesh.scan, mesh.scan_step, flat_mesh, mesh.new, h,
      hit_record.set_face_normal]

end ValidDistanceClaim

section FaceNormalWitness

/-- Witness for C10: the two routing clauses applied to a sphere hit
(`unit_sphere`, `z_ray`), to a mesh hit without a box (`flat_mesh`,
`slant_ray`) and to a mesh hit with the box built and an axis-parallel ray
(`tilt_mesh`, `axis_ray`). -/
theorem set_face_normal_orients_witness :
    (0 < unit_sphere.radius ∧ z_ray.direction ≠ vec3.zero ∧
        (unit_sphere.hit Rat.sqrt z_ray 0 10 rec0).1 = true) ∧
      (flat_mesh.hit slant_ray 0 10 rec0).1 = true ∧
      (tilt_mesh.bounding_box.hit axis_ray 0 10 rec0).1 = true ∧
      dot z_ray.direction (unit_sphere.hit Rat.sqrt z_ray 0 10 rec0).2.normal ≤ 0 ∧
      (∃ tri ∈ flat_mesh.triangles,
        (flat_mesh.hit slant_ray 0 10 rec0).2.normal =
            (rec0.set_face_normal slant_ray tri.normal).normal ∧
          (flat_mesh.hit slant_ray 0 10 rec0).2.front_face =
            (rec0.set_face_normal slant_ray tri.normal).front_face ∧
          dot slant_ray.direction (flat_mesh.hit slant_ray 0 10 rec0).2.normal ≤ 0) ∧
      ∃ tri ∈ tilt_mesh.bounding_box.triangles,
        (tilt_mesh.bounding_box.hit axis_ray 0 10 rec0).2.normal =
            (rec0.set_face_normal axis_ray tri.normal).normal ∧
          (tilt_mesh.bounding_box.hit axis_ray 0 10 rec0).2.front_face =
            (rec0.set_face_normal axis_ray tri.normal).front_face ∧
          dot axis_ray.direction (tilt_mesh.bounding_box.hit axis_ray 0 10 rec0).2.normal ≤ 0 :=
  ⟨⟨unit_sphere_radius_pos, z_ray_direction_ne, z_ray_hit_true⟩, flat_mesh_hit,
    tilt_mesh_axis_hit,
    ((set_face_normal_orients Rat.sqrt rec0 z_ray ⟨0, 0, 1⟩).2.2.2.2.1 unit_sphere 0 10
      unit_sphere_radius_pos z_ray_direction_ne z_ray_hit_true).2.2,
    (set_face_normal_orients Rat.sqrt rec0 slant_ray ⟨0, 0, 1⟩).2.2.2.2.2 flat_mesh 0 10
      flat_mesh_hit,
    (set_face_normal_orients Rat.sqrt rec0 axis_ray ⟨0, 0, 1⟩).2.2.2.2.2
      tilt_mesh.bounding_box 0 10 tilt_mesh_axis_hit⟩

end FaceNormalWitness

end Rendering
